/-
  Verification of the notes-mcp core service layer (Go) against its
  natural-language specification.

  Shallow embedding: Go strings are modelled as List Char (and Lean String
  for generated script text), Go slices as an explicit GoSlice type that
  distinguishes nil from empty, Go time.Time as a civil date-time record,
  and Go errors as an inductive GoError type.  Side effects (the injected
  ScriptExecutor, time.Now()) are passed as explicit parameters.

  Sources embedded: services/notes.go (service facade, script builders,
  result parsers, date parsing, escaping) and services/errors.go
  (DetectError classifier).
-/
import Mathlib

namespace NotesMCP

/-! ## Go string primitives -/

/-- unicode.IsSpace restricted to the code points Go recognises as
White_Space (the full Unicode White_Space list). -/
def goIsSpace (c : Char) : Bool :=
  c = ' ' || c = '\t' || c = '\n' || c = '\x0b' || c = '\x0c' || c = '\r' ||
  c = '\x85' || c = '\xa0' ||
  c.toNat = 0x1680 || (0x2000 ≤ c.toNat && c.toNat ≤ 0x200a) ||
  c.toNat = 0x2028 || c.toNat = 0x2029 || c.toNat = 0x202f ||
  c.toNat = 0x205f || c.toNat = 0x3000

/-- strings.TrimSpace: drop leading and trailing white space. -/
def goTrimSpace (s : List Char) : List Char :=
  ((s.dropWhile goIsSpace).reverse.dropWhile goIsSpace).reverse

/-- strings.ReplaceAll specialised to a single-character pattern
(both call sites in escapeForAppleScript and formatContent replace a
single character, so non-overlapping left-to-right replacement is
exactly character-wise expansion). -/
def goReplaceAllChar (old : Char) (new : List Char) : List Char → List Char
  | [] => []
  | c :: rest =>
    (if c = old then new else [c]) ++ goReplaceAllChar old new rest

/-- First index at which `sub` occurs in `s` (strings.Index). -/
def findSub (sub : List Char) : List Char → Option Nat
  | [] => if sub = [] then some 0 else none
  | c :: rest =>
    if sub.isPrefixOf (c :: rest) then some 0
    else (findSub sub rest).map (· + 1)

/-- Fueled worker for strings.Split: cut at each leftmost occurrence of
the separator.  Fuel `s.length + 1` always suffices for a non-empty
separator. -/
def splitOnFuel (sep : List Char) : Nat → List Char → List (List Char)
  | 0, s => [s]
  | fuel + 1, s =>
    match findSub sep s with
    | none => [s]
    | some i => s.take i :: splitOnFuel sep fuel (s.drop (i + sep.length))

/-- strings.Split for a non-empty separator. -/
def goSplit (sep s : List Char) : List (List Char) :=
  splitOnFuel sep (s.length + 1) s

/-- strings.Contains: the pattern occurs somewhere in the subject. -/
def goContains (sub l : List Char) : Bool :=
  (findSub sub l).isSome

/-- strings.TrimPrefix. -/
def goTrimPre (pre s : List Char) : List Char :=
  if pre.isPrefixOf s then s.drop pre.length else s

/-- strings.TrimSuffix. -/
def goTrimSuf (suf s : List Char) : List Char :=
  if suf.isSuffixOf s then s.take (s.length - suf.length) else s

/-- ASCII lowering, the fragment of strings.ToLower / the regexp (?i)
flag exercised by the classifier patterns (which are all ASCII). -/
def goToLower (c : Char) : Char := c.toLower

/-! ## Escaping (services/notes.go escapeForAppleScript) -/

/-- escapeForAppleScript: double every backslash, then prefix every
double quote with a backslash — in that order. -/
def escapeForAppleScript (input : List Char) : List Char :=
  let result := goReplaceAllChar '\\' ['\\', '\\'] input
  goReplaceAllChar '\"' ['\\', '\"'] result

/-- Scanner for the spec property that an escaped string can sit inside
a double-quoted literal: consuming escape pairs left to right, no bare
double quote may appear and no lone backslash may end the string. -/
def wellEscaped : List Char → Bool
  | [] => true
  | c :: rest =>
    if c = '\\' then
      match rest with
      | [] => false
      | _ :: rest2 => wellEscaped rest2
    else if c = '\"' then false
    else wellEscaped rest

/-- Value of a backslash escape in an AppleScript string literal. -/
def decodeEsc (d : Char) : Char :=
  if d = 'n' then '\n' else if d = 'r' then '\r' else if d = 't' then '\t' else d

/-- Modelled from the spec: the target script interpreter (AppleScript)
decoding of a double-quoted string literal body, the component outside
this repository against which the spec states the round trip.  A
backslash followed by a character decodes per decodeEsc (so backslash
and double quote decode to themselves); other characters are literal. -/
def asUnescape : List Char → List Char
  | [] => []
  | c :: rest =>
    if c = '\\' then
      match rest with
      | [] => ['\\']
      | d :: rest2 => decodeEsc d :: asUnescape rest2
    else c :: asUnescape rest

/-! ## Data model -/

/-- Go error values flowing through the service (services/errors.go
sentinels, fmt.Errorf errors, fmt.Errorf with a wrapped inner error, and
the context package errors). -/
inductive GoError where
  | deadlineExceeded
  | canceled
  | noteNotFound
  | folderNotFound
  | notesAppNotRunning
  | permissionDenied
  | scriptTimeout
  | invalidInput
  | errorf (msg : String)
  | wrapped (msg : String) (inner : GoError)
deriving DecidableEq, Repr

/-- Sentinel ErrNoteNotFound. -/
def ErrNoteNotFound : GoError := .noteNotFound
/-- Sentinel ErrFolderNotFound. -/
def ErrFolderNotFound : GoError := .folderNotFound
/-- Sentinel ErrNotesAppNotRunning. -/
def ErrNotesAppNotRunning : GoError := .notesAppNotRunning
/-- Sentinel ErrPermissionDenied. -/
def ErrPermissionDenied : GoError := .permissionDenied
/-- Sentinel ErrScriptTimeout. -/
def ErrScriptTimeout : GoError := .scriptTimeout
/-- Sentinel ErrInvalidInput. -/
def ErrInvalidInput : GoError := .invalidInput

/-- errors.Is: equality at each level of %w unwrapping. -/
def errorsIs (e t : GoError) : Bool :=
  match e with
  | .wrapped m inner => (GoError.wrapped m inner == t) || errorsIs inner t
  | e0 => e0 == t

/-- Go time.Time in the civil (proleptic Gregorian, UTC) fields the
service reads and writes; the bridge emits no time zone. -/
structure GoTime where
  year : Nat
  month : Nat
  day : Nat
  hour : Nat
  minute : Nat
  second : Nat
deriving DecidableEq, Repr

/-- The zero time.Time (January 1, year 1, 00:00:00). -/
def zeroTime : GoTime := ⟨1, 1, 1, 0, 0, 0⟩

/-- Days from 1970-01-01 to year-month-day (civil-from-days inverse,
standard days-from-civil computation). -/
def daysFromCivil (y m d : Int) : Int :=
  let y' := if m ≤ 2 then y - 1 else y
  let era := (if y' ≥ 0 then y' else y' - 399) / 400
  let yoe := y' - era * 400
  let mp := (m + 9) % 12
  let doy := (153 * mp + 2) / 5 + d - 1
  let doe := yoe * 365 + yoe / 4 - yoe / 100 + doy
  era * 146097 + doe - 719468

/-- time.Time.UnixMilli from civil fields. -/
def unixMilli (t : GoTime) : Int :=
  (daysFromCivil t.year t.month t.day * 86400 +
   t.hour * 3600 + t.minute * 60 + t.second) * 1000

/-- Weekday index (0 = Sunday) of a civil date; 1970-01-01 was a
Thursday. -/
def weekdayIdx (t : GoTime) : Nat :=
  ((daysFromCivil t.year t.month t.day + 4) % 7).toNat

/-- A Go slice: nil or a defined (possibly empty) sequence.  The
distinction carries the data-model invariant that list-returning
operations never hand back a nil slice. -/
inductive GoSlice (α : Type) where
  | nilSlice
  | mk (xs : List α)
deriving DecidableEq, Repr

/-- True when the slice is defined (non-nil), possibly empty. -/
def GoSlice.isDefined {α : Type} : GoSlice α → Bool
  | .nilSlice => false
  | .mk _ => true

/-- The underlying list of a slice (nil reads as empty). -/
def GoSlice.toList {α : Type} : GoSlice α → List α
  | .nilSlice => []
  | .mk xs => xs

/-- The Note entity (services/notes.go). -/
structure Note where
  id : String
  title : String
  content : String
  tags : List String
  created : GoTime
  modified : GoTime
  creationDate : GoTime
  modificationDate : GoTime
  folder : String
  shared : Bool
  passwordProtected : Bool
deriving DecidableEq, Repr

/-- The Attachment entity (services/notes.go). -/
structure Attachment where
  name : String
  filePath : String
  contentIdentifier : String
  creationDate : GoTime
  modificationDate : GoTime
  id : String
deriving DecidableEq, Repr

/-- A zero-valued Attachment (struct literal Attachment in Go). -/
def emptyAttachment : Attachment :=
  ⟨"", "", "", zeroTime, zeroTime, ""⟩

/-- The recursive FolderNode entity (services/notes.go). -/
inductive FolderNode where
  | node (name : String) (shared : Bool) (children : List FolderNode) (noteCount : Nat)

/-- Name of a folder node. -/
def FolderNode.name : FolderNode → String
  | .node n _ _ _ => n

/-- Shared flag of a folder node. -/
def FolderNode.sharedFlag : FolderNode → Bool
  | .node _ s _ _ => s

/-- Children of a folder node. -/
def FolderNode.children : FolderNode → List FolderNode
  | .node _ _ cs _ => cs

/-- Note count of a folder node. -/
def FolderNode.noteCount : FolderNode → Nat
  | .node _ _ _ k => k

/-- SearchOptions (services/notes.go). -/
structure SearchOptions where
  query : String
  searchIn : String
  folder : String
  dateFrom : Option GoTime
  dateTo : Option GoTime
deriving DecidableEq, Repr

/-- Search location constant SearchInTitle. -/
def SearchInTitle : String := "title"
/-- Search location constant SearchInBody. -/
def SearchInBody : String := "body"
/-- Search location constant SearchInBoth. -/
def SearchInBoth : String := "both"

/-- The account name the reference deployment is constructed with
(NewAppleNotesService hard-codes iCloudAccount). -/
def iCloudAccount : String := "iCloud"

/-! ## Error classifier (services/errors.go) -/

/-- ASCII word character, the character class RE2 uses for the word
boundary assertion in the not-found patterns. -/
def isWordChar (c : Char) : Bool := c.isAlphanum || c = '_'

/-- RE2 whitespace class backslash-s: tab, newline, form feed, carriage
return, space. -/
def isRegexSpace (c : Char) : Bool :=
  c = '\t' || c = '\n' || c = '\x0c' || c = '\r' || c = ' '

/-- Matcher for the tail of the not-found regexes at a fixed position:
literal not, one or more whitespace, literal found, then a word
boundary. -/
def notFoundHere (l : List Char) : Bool :=
  "not".toList.isPrefixOf l &&
  (let l2 := l.drop 3
   let ws := l2.takeWhile isRegexSpace
   (!ws.isEmpty) &&
   (let l3 := l2.dropWhile isRegexSpace
    "found".toList.isPrefixOf l3 &&
    (match l3.drop 5 with
     | [] => true
     | d :: _ => !isWordChar d)))

/-- Scanner for the lazy dot-star gap of the not-found regexes: walk
forward from the keyword, never across a newline (dot excludes
newline), testing at each position whether the preceding character
forms a word boundary and the not-found tail matches there. -/
def scanGap (prev : Char) : List Char → Bool
  | [] => false
  | c :: rest =>
    (!isWordChar prev && notFoundHere (c :: rest)) ||
    (c != '\n' && scanGap c rest)

/-- Scanner for the whole not-found regex: try the keyword at every
start position (leftmost-match semantics of MatchString). -/
def kwScan (kw : List Char) (kwLast : Char) : List Char → Bool
  | [] => false
  | c :: rest =>
    (kw.isPrefixOf (c :: rest) && scanGap kwLast ((c :: rest).drop kw.length)) ||
    kwScan kw kwLast rest

/-- regexp MatchString for the two case-insensitive not-found patterns
(keyword, then a lazy gap, then not-whitespace-found between word
boundaries); case-insensitivity is modelled by lowering the subject,
the patterns being lower-case ASCII. -/
def matchNotFoundPattern (kw : List Char) (kwLast : Char) (s : List Char) : Bool :=
  kwScan kw kwLast (s.map goToLower)

/-- DetectError (services/errors.go): order of checks as in the source.
The context argument of the Go function is unused (the deadline check
inspects the error value, not the context). -/
def DetectError (stderr : List Char) (err : GoError) : GoError :=
  if errorsIs err GoError.deadlineExceeded then ErrScriptTimeout
  else if stderr = [] then err
  else if goContains "-1728".toList (stderr.map goToLower) ||
          goContains "event not handled".toList (stderr.map goToLower) then
    ErrNotesAppNotRunning
  else if goContains "not allowed".toList (stderr.map goToLower) ||
          goContains "-1743".toList (stderr.map goToLower) then
    ErrPermissionDenied
  else if matchNotFoundPattern "note".toList 'e' stderr then ErrNoteNotFound
  else if matchNotFoundPattern "folder".toList 'r' stderr then ErrFolderNotFound
  else err

/-! ## Claim-side (spec-worded) predicates for the classifier -/

/-- Spec wording: the diagnostics contain the needle, compared case-
insensitively. -/
def containsCI (needle hay : List Char) : Bool :=
  goContains (needle.map goToLower) (hay.map goToLower)

/-- Spec wording of the not-found patterns: the lowered diagnostics
decompose as keyword, a non-empty newline-free gap ending in a non-word
character, the word not, whitespace, the word found, and a boundary. -/
def NotFoundDecomp (kw : List Char) (s : List Char) : Prop :=
  ∃ pre gap ws post,
    s.map goToLower =
      pre ++ (kw ++ (gap ++ ("not".toList ++ (ws ++ ("found".toList ++ post))))) ∧
    gap ≠ [] ∧ (∀ c ∈ gap, c ≠ '\n') ∧
    (∃ g, gap.getLast? = some g ∧ isWordChar g = false) ∧
    ws ≠ [] ∧ (∀ c ∈ ws, isRegexSpace c = true) ∧
    (post = [] ∨ ∃ d rest, post = d :: rest ∧ isWordChar d = false)

/-! ## Date formatting and parsing (Go time layout
Monday, January 2, 2006 at 3:04:05 PM) -/

/-- The seven long weekday names, Sunday first (Go longDayNames). -/
def longDayNames : List (List Char) :=
  (["Sunday", "Monday", "Tuesday", "Wednesday", "Thursday", "Friday",
    "Saturday"] : List String).map String.toList

/-- The twelve long month names (Go longMonthNames); index + 1 is the
month number. -/
def longMonthNames : List (List Char) :=
  (["January", "February", "March", "April", "May", "June", "July",
    "August", "September", "October", "November", "December"] :
    List String).map String.toList

/-- Two-digit zero-padded print (layout 04, 05). -/
def pad2 (n : Nat) : String := if n < 10 then "0" ++ toString n else toString n

/-- Four-digit zero-padded print (layout 2006). -/
def pad4 (n : Nat) : String :=
  if n < 10 then "000" ++ toString n
  else if n < 100 then "00" ++ toString n
  else if n < 1000 then "0" ++ toString n
  else toString n

/-- Name of weekday index 0–6 (Sunday first). -/
def weekdayName (i : Nat) : String :=
  String.mk ((longDayNames.getD i []).map id)

/-- Name of month number 1–12. -/
def monthName (m : Nat) : String :=
  String.mk ((longMonthNames.getD (m - 1) []).map id)

/-- formatAppleScriptDate: t.Format of the fixed layout. -/
def formatAppleScriptDate (t : GoTime) : String :=
  let h12 := t.hour % 12
  weekdayName (weekdayIdx t) ++ ", " ++ monthName t.month ++ " " ++
  toString t.day ++ ", " ++ pad4 t.year ++ " at " ++
  toString (if h12 = 0 then 12 else h12) ++ ":" ++ pad2 t.minute ++ ":" ++
  pad2 t.second ++ " " ++ (if t.hour < 12 then "AM" else "PM")

/-- Consume a literal piece of the layout. -/
def parseLit (lit s : List Char) : Option (List Char) :=
  if lit.isPrefixOf s then some (s.drop lit.length) else none

/-- Consume the first of a list of names that prefixes the input,
returning its index (Go lookup over a name table). -/
def parseOneOf : List (List Char) → List Char → Option (Nat × List Char)
  | [], _ => none
  | n :: ns, s =>
    if n.isPrefixOf s then some (0, s.drop n.length)
    else (parseOneOf ns s).map (fun p => (p.1 + 1, p.2))

/-- Consume one or two digits (Go getnum with fixed = false). -/
def parseNum1or2 : List Char → Option (Nat × List Char)
  | [] => none
  | c :: rest =>
    if c.isDigit then
      match rest with
      | d :: rest2 =>
        if d.isDigit then some ((c.toNat - 48) * 10 + (d.toNat - 48), rest2)
        else some (c.toNat - 48, rest)
      | [] => some (c.toNat - 48, [])
    else none

/-- Consume exactly two digits (Go getnum with fixed = true). -/
def parseNum2 : List Char → Option (Nat × List Char)
  | a :: b :: rest =>
    if a.isDigit && b.isDigit then
      some ((a.toNat - 48) * 10 + (b.toNat - 48), rest)
    else none
  | _ => none

/-- Consume exactly four digits (layout 2006). -/
def parseNum4 : List Char → Option (Nat × List Char)
  | a :: b :: c :: d :: rest =>
    if a.isDigit && b.isDigit && c.isDigit && d.isDigit then
      some (((a.toNat - 48) * 10 + (b.toNat - 48)) * 100 +
            (c.toNat - 48) * 10 + (d.toNat - 48), rest)
    else none
  | _ => none

/-- Consume the upper-case meridiem marker (layout PM accepts exactly
AM or PM); true means PM. -/
def parseAmPm (s : List Char) : Option (Bool × List Char) :=
  if "PM".toList.isPrefixOf s then some (true, s.drop 2)
  else if "AM".toList.isPrefixOf s then some (false, s.drop 2)
  else none

/-- Gregorian leap year. -/
def isLeapYear (y : Nat) : Bool :=
  (y % 4 = 0 && y % 100 ≠ 0) || y % 400 = 0

/-- Days in a month (Go daysIn). -/
def daysInMonth (y m : Nat) : Nat :=
  if m = 2 then (if isLeapYear y then 29 else 28)
  else if m = 4 ∨ m = 6 ∨ m = 9 ∨ m = 11 then 30
  else 31

/-- Hour-of-day from a 12-hour value and the meridiem flag (the
adjustment Go applies after parsing the PM layout field). -/
def hourFromTwelve (isPM : Bool) (h12 : Nat) : Nat :=
  if isPM then (if h12 < 12 then h12 + 12 else h12)
  else (if h12 = 12 then 0 else h12)

/-- The tail of the layout parse from the 12-hour field on (split out
of goTimeParse for tractable elaboration). -/
def goTimeParseClock (year month day : Nat) (r8 : List Char) : Option GoTime :=
  match parseNum1or2 r8 with
  | none => none
  | some (h12, r9) =>
    if h12 > 12 then none else
    match parseLit ":".toList r9 with
    | none => none
    | some r10 =>
      match parseNum2 r10 with
      | none => none
      | some (minute, r11) =>
        if minute ≥ 60 then none else
        match parseLit ":".toList r11 with
        | none => none
        | some r12 =>
          match parseNum2 r12 with
          | none => none
          | some (second, r13) =>
            if second ≥ 60 then none else
            match parseLit " ".toList r13 with
            | none => none
            | some r14 =>
              match parseAmPm r14 with
              | none => none
              | some (isPM, r15) =>
                if r15 ≠ [] then none else
                if day = 0 ∨ day > daysInMonth year month then none
                else some ⟨year, month, day,
                           hourFromTwelve isPM h12, minute, second⟩

/-- Go time.Parse specialised to the fixed layout
Monday, January 2, 2006 at 3:04:05 PM: the weekday name is consumed but
not checked against the date, the 12-hour value may not exceed 12,
minutes and seconds are range-checked, the day is checked against the
month length, trailing input is an error, and the meridiem marker
adjusts the hour. -/
def goTimeParse (s : List Char) : Option GoTime :=
  match parseOneOf longDayNames s with
  | none => none
  | some (_, r1) =>
    match parseLit ", ".toList r1 with
    | none => none
    | some r2 =>
      match parseOneOf longMonthNames r2 with
      | none => none
      | some (mi, r3) =>
        match parseLit " ".toList r3 with
        | none => none
        | some r4 =>
          match parseNum1or2 r4 with
          | none => none
          | some (day, r5) =>
            match parseLit ", ".toList r5 with
            | none => none
            | some r6 =>
              match parseNum4 r6 with
              | none => none
              | some (year, r7) =>
                match parseLit " at ".toList r7 with
                | none => none
                | some r8 => goTimeParseClock year (mi + 1) day r8

/-- parseAppleScriptDate (services/notes.go): strip the optional
date-quote wrapper, trim, and parse the fixed layout; a non-matching
string is a parse error and never a silent zero value. -/
def parseAppleScriptDate (dateStr : List Char) : Except String GoTime :=
  match goTimeParse (goTrimSpace (goTrimSuf "\"".toList
      (goTrimPre "date \"".toList dateStr))) with
  | some t => .ok t
  | none =>
    .error ("failed to parse AppleScript date " ++
      String.mk (goTrimSpace (goTrimSuf "\"".toList
        (goTrimPre "date \"".toList dateStr))))

/-- The wrapped form of a date string as the bridge may emit it. -/
def wrapDate (s : List Char) : List Char :=
  "date \"".toList ++ s ++ ['\"']

/-! ## Script builders (services/notes.go) -/

/-- escapeForAppleScript lifted to Lean String for script synthesis. -/
def escapeForAppleScriptS (s : String) : String :=
  String.mk (escapeForAppleScript s.data)

/-- The two enclosing tell blocks every generated script opens with
(indentation whitespace of the Go source templates is elided
throughout; it is semantically inert AppleScript layout). -/
def scriptHeader : String :=
  "\ntell application \"Notes\"\ntell account \"" ++ iCloudAccount ++ "\"\n"

/-- The closing lines of every generated script. -/
def scriptFooter : String := "end tell\nend tell\n"

/-- The delimiter-join-and-return block shared by the list-producing
scripts, parameterised by the list variable it serialises. -/
def delimiterReturnBlock (v : String) : String :=
  "set oldDelimiters to AppleScript\x27s text item delimiters\n" ++
  "set AppleScript\x27s text item delimiters to \"|||\"\n" ++
  "set result to " ++ v ++ " as string\n" ++
  "set AppleScript\x27s text item delimiters to oldDelimiters\n" ++
  "return result\n"

/-- buildTitleSearch: fast built-in query when no filter is requested,
otherwise folder narrowing and in-loop date rejection. -/
def buildTitleSearch (safeQuery : String) (opts : SearchOptions) : String :=
  if opts.folder = "" ∧ opts.dateFrom = none ∧ opts.dateTo = none then
    scriptHeader ++
    "set output to \x7b\x7d\n" ++
    "set foundNotes to notes where name contains \"" ++ safeQuery ++ "\"\n" ++
    "repeat with n in foundNotes\nset end of output to name of n\nend repeat\n" ++
    delimiterReturnBlock "output" ++ scriptFooter
  else
    let script := scriptHeader ++ "set matchedNotes to \x7b\x7d\n"
    let script := script ++
      (if opts.folder ≠ "" then
        "set targetFolder to folder \"" ++ escapeForAppleScriptS opts.folder ++
        "\"\nset candidateNotes to notes of targetFolder where name contains \"" ++
        safeQuery ++ "\"\n"
      else
        "set candidateNotes to notes where name contains \"" ++ safeQuery ++ "\"\n")
    if opts.dateFrom ≠ none ∨ opts.dateTo ≠ none then
      let script := script ++ "repeat with n in candidateNotes\n"
      let script := script ++
        (match opts.dateFrom with
         | some t =>
           "if modification date of n < date \"" ++ formatAppleScriptDate t ++
           "\" then\nnext repeat\nend if\n"
         | none => "")
      let script := script ++
        (match opts.dateTo with
         | some t =>
           "if modification date of n > date \"" ++ formatAppleScriptDate t ++
           "\" then\nnext repeat\nend if\n"
         | none => "")
      script ++ "copy name of n to end of matchedNotes\nend repeat\n" ++
        delimiterReturnBlock "matchedNotes" ++ scriptFooter
    else
      script ++
        "repeat with n in candidateNotes\ncopy name of n to end of matchedNotes\nend repeat\n" ++
        delimiterReturnBlock "matchedNotes" ++ scriptFooter

/-- buildBodySearch: full scan of every note checking the body
predicate (no filters). -/
def buildBodySearch (safeQuery : String) : String :=
  scriptHeader ++
  "set matchedNotes to \x7b\x7d\n" ++
  "set allNotes to notes\n" ++
  "repeat with n in allNotes\n" ++
  "if body of n contains \"" ++ safeQuery ++ "\" then\n" ++
  "copy name of n to end of matchedNotes\nend if\n" ++
  "end repeat\n" ++
  delimiterReturnBlock "matchedNotes" ++ scriptFooter

/-- buildBothSearch: full scan checking the title-or-body predicate
(no filters). -/
def buildBothSearch (safeQuery : String) : String :=
  scriptHeader ++
  "set matchedNotes to \x7b\x7d\n" ++
  "set allNotes to notes\n" ++
  "repeat with n in allNotes\n" ++
  "if (name of n contains \"" ++ safeQuery ++
  "\") or (body of n contains \"" ++ safeQuery ++ "\") then\n" ++
  "copy name of n to end of matchedNotes\nend if\n" ++
  "end repeat\n" ++
  delimiterReturnBlock "matchedNotes" ++ scriptFooter

/-- buildFilteredBodySearch: narrow the candidate set by folder, then
per candidate reject by date range, then test the body (or
title-or-body) predicate. -/
def buildFilteredBodySearch (safeQuery searchIn : String)
    (opts : SearchOptions) : String :=
  let script := scriptHeader ++ "set matchedNotes to \x7b\x7d\n"
  let script := script ++
    (if opts.folder ≠ "" then
      "set targetFolder to folder \"" ++ escapeForAppleScriptS opts.folder ++
      "\"\nset candidateNotes to notes of targetFolder\n"
    else "set candidateNotes to notes\n")
  let script := script ++ "repeat with n in candidateNotes\n"
  let script := script ++
    (match opts.dateFrom with
     | some t =>
       "if modification date of n < date \"" ++ formatAppleScriptDate t ++
       "\" then\nnext repeat\nend if\n"
     | none => "")
  let script := script ++
    (match opts.dateTo with
     | some t =>
       "if modification date of n > date \"" ++ formatAppleScriptDate t ++
       "\" then\nnext repeat\nend if\n"
     | none => "")
  let script := script ++
    (if searchIn = "both" then
      "if (name of n contains \"" ++ safeQuery ++
      "\") or (body of n contains \"" ++ safeQuery ++ "\") then\n" ++
      "copy name of n to end of matchedNotes\nend if\n"
    else
      "if body of n contains \"" ++ safeQuery ++ "\" then\n" ++
      "copy name of n to end of matchedNotes\nend if\n")
  script ++ "end repeat\n" ++ delimiterReturnBlock "matchedNotes" ++ scriptFooter

/-- Whether the options request a folder or date filter (inline
condition needsFiltering in buildSearchScript). -/
def needsFiltering (opts : SearchOptions) : Bool :=
  opts.folder ≠ "" || opts.dateFrom.isSome || opts.dateTo.isSome

/-- buildSearchScript: strategy dispatch over scope and filters. -/
def buildSearchScript (searchIn : String) (opts : SearchOptions) : String :=
  let safeQuery := escapeForAppleScriptS opts.query
  let isBodySearch := searchIn = SearchInBody || searchIn = SearchInBoth
  if isBodySearch && needsFiltering opts then
    buildFilteredBodySearch safeQuery searchIn opts
  else if searchIn = SearchInTitle then buildTitleSearch safeQuery opts
  else if searchIn = SearchInBody then buildBodySearch safeQuery
  else if searchIn = SearchInBoth then buildBothSearch safeQuery
  else buildTitleSearch safeQuery opts

/-! ## Service operations (services/notes.go), with the injected
executor and the wall clock as explicit parameters -/

/-- The injected ScriptExecutor: script text to (stdout, stderr,
error). -/
abbrev Exec := String → String × String × Option GoError

/-- A Note as every list-producing parse loop constructs it: title from
the parsed segment, synthetic id from the wall clock, empty content and
tags, both loose timestamps set to the wall clock, remaining fields
zero-valued. -/
def mkListNote (now : GoTime) (title : List Char) : Note :=
  { id := toString (unixMilli now), title := String.mk title, content := "",
    tags := [], created := now, modified := now, creationDate := zeroTime,
    modificationDate := zeroTime, folder := "", shared := false,
    passwordProtected := false }

/-- The parse loop of parseSearchResults: trim each segment, skip empty
ones, stop once one hundred notes have been collected. -/
def psrLoop (now : GoTime) : List (List Char) → Nat → List Note
  | [], _ => []
  | t :: rest, count =>
    let t2 := goTrimSpace t
    if t2 = [] then psrLoop now rest count
    else
      let note := mkListNote now t2
      if count + 1 ≥ 100 then [note] else note :: psrLoop now rest (count + 1)

/-- parseSearchResults: trim, split on the three-pipe delimiter, build
capped Note values (the Go local holding the trimmed output is inlined
throughout this embedding). -/
def parseSearchResults (now : GoTime) (stdout : String) : GoSlice Note :=
  if goTrimSpace stdout.data = [] then .mk []
  else .mk (psrLoop now (goSplit "|||".toList (goTrimSpace stdout.data)) 0)

/-- fmt %q on the plain ASCII scope names that reach it (quote the
string, doubling backslashes and escaping double quotes; the further
control-character escapes of %q cannot trigger on these inputs). -/
def percentQ (s : String) : String :=
  "\"" ++ escapeForAppleScriptS s ++ "\""

/-- validateSearchIn: exactly title, body or both is accepted; anything
else produces a formatted error (a plain fmt.Errorf value, not the
ErrInvalidInput sentinel). -/
def validateSearchIn (searchIn : String) : Option GoError :=
  if searchIn ≠ SearchInTitle ∧ searchIn ≠ SearchInBody ∧ searchIn ≠ SearchInBoth then
    some (.errorf ("invalid SearchIn value: " ++ percentQ searchIn ++
      " (must be \x27title\x27, \x27body\x27, or \x27both\x27)"))
  else none

/-- SearchNotesAdvanced: default the scope, validate it, then build the
script, execute, classify any failure, and parse the results. -/
def SearchNotesAdvanced (now : GoTime) (exec : Exec) (opts : SearchOptions) :
    GoSlice Note × Option GoError :=
  match validateSearchIn (if opts.searchIn = "" then SearchInTitle else opts.searchIn) with
  | some e => (.mk [], some e)
  | none =>
    match exec (buildSearchScript
        (if opts.searchIn = "" then SearchInTitle else opts.searchIn) opts) with
    | (_stdout, stderr, some e) =>
      (.mk [], some (.wrapped "failed to search notes" (DetectError stderr.data e)))
    | (stdout, _stderr, none) => (parseSearchResults now stdout, none)

/-- The script of SearchNotes (title-contains query joined with the
three-pipe delimiter). -/
def searchNotesScript (safeQuery : String) : String :=
  scriptHeader ++
  "set noteList to \x7b\x7d\n" ++
  "set foundNotes to notes where name contains \"" ++ safeQuery ++ "\"\n" ++
  "repeat with n in foundNotes\nset end of noteList to name of n\nend repeat\n" ++
  delimiterReturnBlock "noteList" ++ scriptFooter

/-- The uncapped parse loop of SearchNotes, GetNotesInFolder and
GetRecentNotes without limit: trim each segment and skip empty ones. -/
def titleLoop (now : GoTime) : List (List Char) → List Note
  | [] => []
  | t :: rest =>
    let t2 := goTrimSpace t
    if t2 = [] then titleLoop now rest
    else mkListNote now t2 :: titleLoop now rest

/-- SearchNotes: title-contains search over the three-pipe delimited
output, no result cap. -/
def SearchNotes (now : GoTime) (exec : Exec) (query : String) :
    GoSlice Note × Option GoError :=
  match exec (searchNotesScript (escapeForAppleScriptS query)) with
  | (_stdout, stderr, some e) =>
    (.mk [], some (.wrapped "failed to search notes" (DetectError stderr.data e)))
  | (stdout, _stderr, none) =>
    if goTrimSpace stdout.data = [] then (.mk [], none)
    else (.mk (titleLoop now (goSplit "|||".toList (goTrimSpace stdout.data))), none)

/-- The script of ListFolders. -/
def listFoldersScript : String :=
  scriptHeader ++
  "set folderList to \x7b\x7d\n" ++
  "set allFolders to folders\n" ++
  "repeat with f in allFolders\nset end of folderList to name of f\nend repeat\n" ++
  delimiterReturnBlock "folderList" ++ scriptFooter

/-- The parse loop of ListFolders: trim and drop empty names. -/
def folderLoop : List (List Char) → List String
  | [] => []
  | t :: rest =>
    let t2 := goTrimSpace t
    if t2 = [] then folderLoop rest
    else String.mk t2 :: folderLoop rest

/-- ListFolders over the three-pipe delimited output. -/
def ListFolders (exec : Exec) : GoSlice String × Option GoError :=
  match exec listFoldersScript with
  | (_stdout, stderr, some e) =>
    (.mk [], some (.wrapped "failed to list folders" (DetectError stderr.data e)))
  | (stdout, _stderr, none) =>
    if goTrimSpace stdout.data = [] then (.mk [], none)
    else (.mk (folderLoop (goSplit "|||".toList (goTrimSpace stdout.data))), none)

/-- The script of GetRecentNotes. -/
def recentNotesScript : String :=
  scriptHeader ++ "get name of notes\n" ++ scriptFooter

/-- The parse loop of GetRecentNotes: trim each segment, skip empty
ones, and after appending stop once the strictly positive limit is
reached; a non-positive limit never stops the loop. -/
def grnLoop (now : GoTime) (limit : Int) : List (List Char) → Int → List Note
  | [], _ => []
  | t :: rest, count =>
    let t2 := goTrimSpace t
    if t2 = [] then grnLoop now limit rest count
    else
      let note := mkListNote now t2
      if limit > 0 ∧ count + 1 ≥ limit then [note]
      else note :: grnLoop now limit rest (count + 1)

/-- GetRecentNotes: comma-space split of the bridge output with the
limit applied in the parse loop. -/
def GetRecentNotes (now : GoTime) (exec : Exec) (limit : Int) :
    GoSlice Note × Option GoError :=
  match exec recentNotesScript with
  | (_stdout, stderr, some e) =>
    (.mk [], some (.wrapped "failed to get recent notes" (DetectError stderr.data e)))
  | (stdout, _stderr, none) =>
    if goTrimSpace stdout.data = [] then (.mk [], none)
    else (.mk (grnLoop now limit
      (goSplit ", ".toList (goTrimSpace stdout.data)) 0), none)

/-- The script of GetNotesInFolder. -/
def notesInFolderScript (safeFolder : String) : String :=
  scriptHeader ++ "get name of notes in folder \"" ++ safeFolder ++ "\"\n" ++
  scriptFooter

/-- GetNotesInFolder: comma-space split of the bridge output, no
cap. -/
def GetNotesInFolder (now : GoTime) (exec : Exec) (folder : String) :
    GoSlice Note × Option GoError :=
  match exec (notesInFolderScript (escapeForAppleScriptS folder)) with
  | (_stdout, stderr, some e) =>
    (.mk [], some (.wrapped "failed to get notes in folder" (DetectError stderr.data e)))
  | (stdout, _stderr, none) =>
    if goTrimSpace stdout.data = [] then (.mk [], none)
    else (.mk (titleLoop now (goSplit ", ".toList (goTrimSpace stdout.data))), none)

/-! ## Field-record extraction and attachments -/

/-- Leftmost match of the field regex field:(?:quoted|unquoted): at
each start position where the field name and colon match, try the
quoted alternative (one or more non-quote characters between quotes),
then the unquoted alternative (one or more characters other than comma
and closing brace); the boolean records which alternative captured. -/
def extractFieldScan (field : List Char) : List Char → Option (Bool × List Char)
  | [] => none
  | c :: rest =>
    (if (field ++ [':']).isPrefixOf (c :: rest) then
      let after := (c :: rest).drop (field.length + 1)
      match after with
      | '\"' :: tail =>
        let content := tail.takeWhile (fun d => d != '\"')
        if content ≠ [] ∧ tail.drop content.length ≠ [] then some (true, content)
        else
          let run := after.takeWhile (fun d => d != ',' && d != '\x7d')
          if run ≠ [] then some (false, run) else none
      | _ =>
        let run := after.takeWhile (fun d => d != ',' && d != '\x7d')
        if run ≠ [] then some (false, run) else none
    else none).orElse (fun _ => extractFieldScan field rest)

/-- extractField: the quoted capture verbatim, the unquoted capture
trimmed, or empty when the pattern does not match. -/
def extractField (output field : List Char) : List Char :=
  match extractFieldScan field output with
  | some (true, v) => v
  | some (false, v) => goTrimSpace v
  | none => []

/-- Leftmost match of the date-field regex field:date quoted. -/
def extractDateFieldScan (field : List Char) : List Char → Option (List Char)
  | [] => none
  | c :: rest =>
    (if (field ++ ":date \"".toList).isPrefixOf (c :: rest) then
      let tail := (c :: rest).drop (field.length + 7)
      let content := tail.takeWhile (fun d => d != '\"')
      if content ≠ [] ∧ tail.drop content.length ≠ [] then some content
      else none
    else none).orElse (fun _ => extractDateFieldScan field rest)

/-- extractDateField: the captured date text or empty. -/
def extractDateField (output field : List Char) : List Char :=
  (extractDateFieldScan field output).getD []

/-- The per-line body of parseAttachments. -/
def parseAttachmentLine (line : List Char) : Attachment :=
  let a0 := emptyAttachment
  let idv := extractField line "id".toList
  let a1 :=
    if idv ≠ [] then
      { a0 with id := String.mk idv, contentIdentifier := String.mk idv }
    else a0
  let namev := extractField line "name".toList
  let a2 := if namev ≠ [] then { a1 with name := String.mk namev } else a1
  let cont := extractField line "contents".toList
  let a3 :=
    if cont ≠ [] then
      { a2 with filePath := String.mk (goTrimPre "file://".toList cont) }
    else a2
  let cds := extractDateField line "creation date".toList
  let a4 :=
    if cds ≠ [] then
      match parseAppleScriptDate cds with
      | .ok t => { a3 with creationDate := t }
      | .error _ => a3
    else a3
  let mds := extractDateField line "modification date".toList
  if mds ≠ [] then
    match parseAppleScriptDate mds with
    | .ok t => { a4 with modificationDate := t }
    | .error _ => a4
  else a4

/-- The line loop of parseAttachments: skip blank lines, parse each
record line. -/
def paLoop : List (List Char) → List Attachment
  | [] => []
  | line :: rest =>
    let l2 := goTrimSpace line
    if l2 = [] then paLoop rest
    else parseAttachmentLine l2 :: paLoop rest

/-- parseAttachments: empty output is zero attachments; otherwise one
record per line.  The Go function returns a nil error on every path. -/
def parseAttachments (output : String) : GoSlice Attachment :=
  if goTrimSpace output.data = [] then .mk []
  else .mk (paLoop (goSplit ['\n'] (goTrimSpace output.data)))

/-- The script of GetNoteAttachments. -/
def attachmentsScript (safeTitle : String) : String :=
  scriptHeader ++
  "set theNote to note \"" ++ safeTitle ++ "\"\n" ++
  "set attList to attachments of theNote\n" ++
  "set result to \"\"\n" ++
  "repeat with att in attList\n" ++
  "set attInfo to \x7bid:(id of att as text), name:(name of att), " ++
  "contents:(contents of att), creation date:(creation date of att), " ++
  "modification date:(modification date of att)\x7d\n" ++
  "set result to result & attInfo & linefeed\nend repeat\nreturn result\n" ++
  scriptFooter

/-- GetNoteAttachments: execute the attachment enumeration script and
parse each record line (the parse-failure branch of the Go code is
unreachable because parseAttachments never fails). -/
def GetNoteAttachments (exec : Exec) (noteTitle : String) :
    GoSlice Attachment × Option GoError :=
  match exec (attachmentsScript (escapeForAppleScriptS noteTitle)) with
  | (_stdout, stderr, some e) =>
    (.mk [], some (.wrapped "failed to get note attachments" (DetectError stderr.data e)))
  | (stdout, _stderr, none) => (parseAttachments stdout, none)

/-- parseFolderHierarchy as the source defines it: the nested record
output is ignored and a bare root node carrying the account name, an
empty child list and a zero note count is returned (the recursive
descent described in the spec is not performed). -/
def parseFolderHierarchy (_output : String) : Except String FolderNode :=
  .ok (.node iCloudAccount false [] 0)

/-! ## Claim-side (spec-worded) definitions -/

/-- Spec shape: the clean-titles view of list parsing — trim the whole
output, split on the delimiter, trim every segment and drop the empty
ones. -/
def cleanTitles (sep : List Char) (stdout : String) : List (List Char) :=
  ((goSplit sep (goTrimSpace stdout.data)).map goTrimSpace).filter (· ≠ [])

/-- Spec shape: the folder/date pre-filter head of the filtered body
search — the candidate set is the named folder's notes, or all notes
when no folder is given. -/
def specCandidatePart (folder : String) : String :=
  if folder ≠ "" then
    "set targetFolder to folder \"" ++ escapeForAppleScriptS folder ++
    "\"\nset candidateNotes to notes of targetFolder\n"
  else "set candidateNotes to notes\n"

/-- Spec shape: the in-loop date-range rejection of the pre-filter. -/
def specDatePart (dateFrom dateTo : Option GoTime) : String :=
  (match dateFrom with
   | some t =>
     "if modification date of n < date \"" ++ formatAppleScriptDate t ++
     "\" then\nnext repeat\nend if\n"
   | none => "") ++
  (match dateTo with
   | some t =>
     "if modification date of n > date \"" ++ formatAppleScriptDate t ++
     "\" then\nnext repeat\nend if\n"
   | none => "")

/-- Spec shape: the contains-query predicate applied to a candidate,
over the body alone or over title and body. -/
def specPredicatePart (searchIn q : String) : String :=
  if searchIn = "both" then
    "if (name of n contains \"" ++ q ++ "\") or (body of n contains \"" ++
    q ++ "\") then\n" ++ "copy name of n to end of matchedNotes\nend if\n"
  else
    "if body of n contains \"" ++ q ++ "\" then\n" ++
    "copy name of n to end of matchedNotes\nend if\n"

/-- Spec shape: the pre-filtered body/both search script — candidate
narrowing first, then the per-candidate loop applying date rejection
before the predicate. -/
def specFilteredScript (q searchIn : String) (opts : SearchOptions) : String :=
  scriptHeader ++ "set matchedNotes to \x7b\x7d\n" ++
  specCandidatePart opts.folder ++
  "repeat with n in candidateNotes\n" ++
  specDatePart opts.dateFrom opts.dateTo ++
  specPredicatePart searchIn q ++
  "end repeat\n" ++ delimiterReturnBlock "matchedNotes" ++ scriptFooter

/-- Spec shape: the unfiltered full-scan body/both search script that
iterates the entire note collection. -/
def specFullScanScript (q searchIn : String) : String :=
  scriptHeader ++ "set matchedNotes to \x7b\x7d\n" ++
  "set allNotes to notes\n" ++
  "repeat with n in allNotes\n" ++
  specPredicatePart searchIn q ++
  "end repeat\n" ++ delimiterReturnBlock "matchedNotes" ++ scriptFooter

/-! ## Concrete fixtures for witnesses and counterexamples -/

/-- A fixed wall-clock instant. -/
def now0 : GoTime := ⟨2024, 1, 1, 10, 0, 0⟩

/-- A second, different wall-clock instant. -/
def now1 : GoTime := ⟨2025, 2, 3, 4, 5, 6⟩

/-- A bridge output of n three-pipe delimited entries. -/
def manyEntries (n : Nat) : String :=
  String.intercalate "|||" (List.replicate n "t")

/-- The character tail of a delimited output after its first title:
three pipes and a one-character title, repeated. -/
def sepChunk : Nat → List Char
  | 0 => []
  | n + 1 => '|' :: '|' :: '|' :: 't' :: sepChunk n

/-- SearchOptions carrying an unrecognised scope value. -/
def optsInvalid : SearchOptions := ⟨"q", "invalid", "", none, none⟩

/-- An executor that always succeeds with a fixed stdout. -/
def constExec (stdout : String) : Exec := fun _ => (stdout, "", none)

/-- The spec example of a nested folder-hierarchy record: two top-level
children, the first with one nested child, every leaf with an empty
child list. -/
def nestedHierarchyOutput : String :=
  "\x7bname:\"iCloud\", shared:false, noteCount:0, children:\x7b" ++
  "\x7bname:\"Work\", shared:false, noteCount:5, children:\x7b" ++
  "\x7bname:\"Projects\", shared:true, noteCount:2, children:\x7b\x7d\x7d\x7d\x7d, " ++
  "\x7bname:\"Personal\", shared:false, noteCount:3, children:\x7b\x7d\x7d\x7d\x7d"

/-- Character-wise description of the two sequential replacements. -/
def escChar (c : Char) : List Char :=
  if c = '\\' then ['\\', '\\'] else if c = '\"' then ['\\', '\"'] else [c]

theorem goReplaceAllChar_eq_flatMap (old : Char) (new : List Char) (s : List Char) :
    goReplaceAllChar old new s = s.flatMap (fun c => if c = old then new else [c]) := by
  induction s with
  | nil => rfl
  | cons c rest ih => simp [goReplaceAllChar, ih, List.flatMap_cons]

theorem escapeForAppleScript_eq_flatMap (s : List Char) :
    escapeForAppleScript s = s.flatMap escChar := by
  induction s with
  | nil => rfl
  | cons c rest ih =>
    simp only [escapeForAppleScript] at ih ⊢
    simp only [goReplaceAllChar, List.flatMap_cons]
    by_cases hb : c = '\\'
    · subst hb
      simp [goReplaceAllChar, escChar, ih]
    · by_cases hq : c = '\"'
      · subst hq
        simp [goReplaceAllChar, escChar, ih]
      · simp [goReplaceAllChar, escChar, hb, hq, ih]

theorem wellEscaped_cons (c : Char) (l : List Char) :
    wellEscaped (c :: l) =
      if c = '\\' then (match l with | [] => false | _ :: l2 => wellEscaped l2)
      else if c = '\"' then false else wellEscaped l := by
  rw [wellEscaped.eq_def]

theorem asUnescape_cons (c : Char) (l : List Char) :
    asUnescape (c :: l) =
      if c = '\\' then (match l with | [] => ['\\'] | d :: l2 => decodeEsc d :: asUnescape l2)
      else c :: asUnescape l := by
  rw [asUnescape.eq_def]

theorem wellEscaped_escape (s : List Char) :
    wellEscaped (escapeForAppleScript s) = true := by
  rw [escapeForAppleScript_eq_flatMap]
  induction s with
  | nil => rfl
  | cons c rest ih =>
    rw [List.flatMap_cons]
    by_cases hb : c = '\\'
    · subst hb
      simpa [escChar, wellEscaped] using ih
    · by_cases hq : c = '\"'
      · subst hq
        simpa [escChar, wellEscaped] using ih
      · simpa [escChar, wellEscaped_cons, hb, hq] using ih

theorem asUnescape_escape (s : List Char) :
    asUnescape (escapeForAppleScript s) = s := by
  rw [escapeForAppleScript_eq_flatMap]
  induction s with
  | nil => rfl
  | cons c rest ih =>
    rw [List.flatMap_cons]
    by_cases hb : c = '\\'
    · subst hb
      simpa [escChar, asUnescape, decodeEsc] using ih
    · by_cases hq : c = '\"'
      · subst hq
        simpa [escChar, asUnescape, decodeEsc] using ih
      · simpa [escChar, asUnescape_cons, hb, hq] using ih

/-- C3: escapeForAppleScript doubles each backslash and then prefixes
each double quote with a backslash (the order embedded in its
definition); the result contains no unescaped double quote and no lone
trailing backslash, decoding it by the target interpreter's
string-literal rules recovers the input exactly, and the empty string
escapes to the empty string. -/
theorem escapeForAppleScript_round_trip (s : List Char) :
    wellEscaped (escapeForAppleScript s) = true ∧
    asUnescape (escapeForAppleScript s) = s ∧
    escapeForAppleScript [] = [] :=
  ⟨wellEscaped_escape s, asUnescape_escape s, rfl⟩

/-- C1 (code bug): parseFolderHierarchy is a stub — on the spec's own
example of a nested record with two top-level children (one of which
has a nested child), it returns only a bare root node with an empty
child list and zero note count instead of the depth-3 tree the spec
requires. -/
theorem parseFolderHierarchy_stub_flat :
    parseFolderHierarchy nestedHierarchyOutput =
      .ok (.node iCloudAccount false [] 0) ∧
    FolderNode.children (.node iCloudAccount false [] 0) = [] ∧
    FolderNode.noteCount (.node iCloudAccount false [] 0) = 0 :=
  ⟨rfl, rfl, rfl⟩

/-- The capped parse loop of parseSearchResults computes the first
hundred-minus-count clean titles. -/
theorem psrLoop_eq (now : GoTime) (ts : List (List Char)) :
    ∀ count : Nat, count < 100 →
      psrLoop now ts count =
        (((ts.map goTrimSpace).filter (fun t => t ≠ [])).map
          (mkListNote now)).take (100 - count) := by
  induction ts with
  | nil => intro count _; simp [psrLoop]
  | cons t rest ih =>
    intro count hc
    by_cases h2 : goTrimSpace t = []
    · simp [psrLoop, h2, ih count hc]
    · have hsucc : 100 - count = (99 - count) + 1 := by omega
      simp only [psrLoop]
      rw [if_neg h2, List.map_cons,
        List.filter_cons_of_pos (by simpa using h2), List.map_cons,
        hsucc, List.take_succ_cons]
      by_cases h3 : count + 1 ≥ 100
      · have h0 : 99 - count = 0 := by omega
        rw [if_pos h3, h0, List.take_zero]
      · rw [if_neg h3, ih (count + 1) (by omega)]
        have h5 : 100 - (count + 1) = 99 - count := by omega
        rw [h5]

/-- C2 (amended): parseSearchResults trims the output, splits on the
three-character delimiter, trims each segment, drops empty segments and
caps the result at one hundred entries; the true total is not reported
— the capped list is the whole return value. -/
theorem parseSearchResults_caps_at_100 (now : GoTime) (stdout : String) :
    parseSearchResults now stdout =
      .mk (((cleanTitles "|||".toList stdout).map (mkListNote now)).take 100) := by
  unfold parseSearchResults cleanTitles
  by_cases h : goTrimSpace stdout.data = []
  · rw [if_pos h, h]
    rfl
  · rw [if_neg h]
    rw [psrLoop_eq now _ 0 (by omega)]

/-- The data of the intercalate worker over replicated one-character
titles is the accumulator followed by the pipe-and-title chunks. -/
theorem interGoData : ∀ (n : Nat) (acc : String),
    (String.intercalate.go acc "|||" (List.replicate n "t")).data =
      acc.data ++ sepChunk n := by
  intro n
  induction n with
  | zero => intro acc; simp [String.intercalate.go, sepChunk]
  | succ n ih =>
    intro acc
    rw [List.replicate_succ]
    rw [show String.intercalate.go acc "|||" ("t" :: List.replicate n "t") =
      String.intercalate.go (acc ++ "|||" ++ "t") "|||" (List.replicate n "t") from rfl]
    rw [ih]
    show (acc ++ "|||" ++ "t").data ++ sepChunk n =
      acc.data ++ ('|' :: '|' :: '|' :: 't' :: sepChunk n)
    rw [String.data_append, String.data_append]
    simp [List.append_assoc]

/-- Character view of a delimited output of n+1 entries. -/
theorem manyEntriesData (n : Nat) :
    (manyEntries (n + 1)).data = 't' :: sepChunk n := by
  unfold manyEntries
  rw [List.replicate_succ]
  rw [show String.intercalate "|||" ("t" :: List.replicate n "t") =
    String.intercalate.go "t" "|||" (List.replicate n "t") from rfl]
  rw [interGoData]
  rfl

/-- dropWhile is the identity when no element satisfies the predicate. -/
theorem dropWhileAllFalse (p : Char → Bool) :
    ∀ l : List Char, (∀ c ∈ l, p c = false) → l.dropWhile p = l := by
  intro l h
  cases l with
  | nil => rfl
  | cons a rest => simp [List.dropWhile_cons, h a (by simp)]

/-- No character of the delimited tail is white space. -/
theorem sepChunkChars (n : Nat) : ∀ c ∈ sepChunk n, goIsSpace c = false := by
  induction n with
  | zero => intro c hc; simp [sepChunk] at hc
  | succ n ih =>
    intro c hc
    simp only [sepChunk, List.mem_cons] at hc
    rcases hc with h | h | h | h | h
    · rw [h]; decide
    · rw [h]; decide
    · rw [h]; decide
    · rw [h]; decide
    · exact ih c h

/-- Trimming a delimited output is the identity (no white space). -/
theorem trimSepChunk (n : Nat) :
    goTrimSpace ('t' :: sepChunk n) = 't' :: sepChunk n := by
  have hall : ∀ c ∈ 't' :: sepChunk n, goIsSpace c = false := by
    intro c hc
    rcases List.mem_cons.mp hc with h | h
    · rw [h]; decide
    · exact sepChunkChars n c h
  unfold goTrimSpace
  rw [dropWhileAllFalse _ _ hall,
    dropWhileAllFalse _ _ (by intro c hc; exact hall c (List.mem_reverse.mp hc)),
    List.reverse_reverse]

/-- The first delimiter occurrence in a delimited output is at index
one, right after the one-character title. -/
theorem findSubSepChunk (n : Nat) :
    findSub "|||".toList ('t' :: sepChunk (n + 1)) = some 1 := by
  show findSub "|||".toList ('t' :: '|' :: '|' :: '|' :: 't' :: sepChunk n) = some 1
  rw [show findSub "|||".toList ('t' :: '|' :: '|' :: '|' :: 't' :: sepChunk n) =
    (if ("|||".toList).isPrefixOf ('t' :: '|' :: '|' :: '|' :: 't' :: sepChunk n)
      then some 0
      else (findSub "|||".toList ('|' :: '|' :: '|' :: 't' :: sepChunk n)).map (· + 1))
    from rfl]
  rw [if_neg (by simp [List.isPrefixOf])]
  rw [show findSub "|||".toList ('|' :: '|' :: '|' :: 't' :: sepChunk n) =
    (if ("|||".toList).isPrefixOf ('|' :: '|' :: '|' :: 't' :: sepChunk n)
      then some 0
      else (findSub "|||".toList ('|' :: '|' :: 't' :: sepChunk n)).map (· + 1))
    from rfl]
  rw [if_pos (by simp [List.isPrefixOf])]
  rfl

/-- Splitting a delimited output of n+1 one-character titles yields
exactly n+1 title segments, for any sufficient fuel. -/
theorem splitSepChunk : ∀ (n fuel : Nat), n + 1 ≤ fuel →
    splitOnFuel "|||".toList fuel ('t' :: sepChunk n) =
      List.replicate (n + 1) ['t'] := by
  intro n
  induction n with
  | zero =>
    intro fuel hf
    cases fuel with
    | zero => omega
    | succ f =>
      show splitOnFuel "|||".toList (f + 1) ['t'] = [['t']]
      rw [show splitOnFuel "|||".toList (f + 1) ['t'] =
        (match findSub "|||".toList ['t'] with
          | none => [['t']]
          | some i =>
            (['t'] : List Char).take i ::
              splitOnFuel "|||".toList f ((['t'] : List Char).drop (i + 3)))
        from rfl]
      rw [show findSub "|||".toList ['t'] = none from rfl]
  | succ n ih =>
    intro fuel hf
    cases fuel with
    | zero => omega
    | succ f =>
      rw [show splitOnFuel "|||".toList (f + 1) ('t' :: sepChunk (n + 1)) =
        (match findSub "|||".toList ('t' :: sepChunk (n + 1)) with
          | none => [('t' :: sepChunk (n + 1))]
          | some i =>
            ('t' :: sepChunk (n + 1)).take i ::
              splitOnFuel "|||".toList f (('t' :: sepChunk (n + 1)).drop (i + 3)))
        from rfl]
      rw [findSubSepChunk n]
      show ('t' :: sepChunk (n + 1)).take 1 ::
          splitOnFuel "|||".toList f (('t' :: sepChunk (n + 1)).drop 4) =
        List.replicate (n + 2) ['t']
      rw [show ('t' :: sepChunk (n + 1)).take 1 = ['t'] from rfl]
      rw [show ('t' :: sepChunk (n + 1)).drop 4 = 't' :: sepChunk n from rfl]
      rw [ih f (by omega)]
      rfl

/-- Length of the delimited tail. -/
theorem sepChunkLength (n : Nat) : (sepChunk n).length = 4 * n := by
  induction n with
  | zero => rfl
  | succ n ih => simp [sepChunk, ih]; omega

/-- goSplit on the delimited output yields the replicated titles. -/
theorem goSplitSepChunk (n : Nat) :
    goSplit "|||".toList ('t' :: sepChunk n) = List.replicate (n + 1) ['t'] := by
  unfold goSplit
  apply splitSepChunk
  simp [sepChunkLength]
  omega

/-- Trimming and dropping empties over replicated one-character titles
is the identity. -/
theorem repClean (k : Nat) :
    (((List.replicate k (['t'] : List Char)).map goTrimSpace).filter
      (fun t => t ≠ [])) = List.replicate k ['t'] := by
  have ht : goTrimSpace ['t'] = ['t'] := by decide
  induction k with
  | zero => rfl
  | succ k ih => simp only [List.replicate_succ, List.map_cons, ht,
      List.filter_cons, ih]; simp

/-- Evaluation of parseSearchResults and of the clean-titles view on a
delimited output of n+1 one-character titles. -/
theorem parseManyEntries (now : GoTime) (n : Nat) :
    parseSearchResults now (manyEntries (n + 1)) =
      .mk ((List.replicate (n + 1) (mkListNote now ['t'])).take 100) ∧
    cleanTitles "|||".toList (manyEntries (n + 1)) =
      List.replicate (n + 1) ['t'] := by
  constructor
  · unfold parseSearchResults
    rw [manyEntriesData, trimSepChunk, if_neg (List.cons_ne_nil _ _),
      goSplitSepChunk, psrLoop_eq now _ 0 (by omega), repClean,
      List.map_replicate]
  · unfold cleanTitles
    rw [manyEntriesData, trimSepChunk, goSplitSepChunk, repClean]

/-- C2 (counterexample to the claim as stated): the parse result does
not report the true total — outputs with 150 and with 120 delimited
entries produce identical results (the same 100 notes), so no caller
can recover the total of 150 from what parseSearchResults returns. -/
theorem parseSearchResults_no_total_reported :
    parseSearchResults now0 (manyEntries 150) =
      parseSearchResults now0 (manyEntries 120) ∧
    (parseSearchResults now0 (manyEntries 150)).toList.length = 100 ∧
    (cleanTitles "|||".toList (manyEntries 150)).length = 150 ∧
    (cleanTitles "|||".toList (manyEntries 120)).length = 120 := by
  have h1 : parseSearchResults now0 (manyEntries 150) =
      .mk ((List.replicate 150 (mkListNote now0 ['t'])).take 100) :=
    (parseManyEntries now0 149).1
  have h2 : parseSearchResults now0 (manyEntries 120) =
      .mk ((List.replicate 120 (mkListNote now0 ['t'])).take 100) :=
    (parseManyEntries now0 119).1
  have hc1 : cleanTitles "|||".toList (manyEntries 150) =
      List.replicate 150 ['t'] := (parseManyEntries now0 149).2
  have hc2 : cleanTitles "|||".toList (manyEntries 120) =
      List.replicate 120 ['t'] := (parseManyEntries now0 119).2
  refine ⟨?_, ?_, ?_, ?_⟩
  · rw [h1, h2, List.take_replicate, List.take_replicate]
    norm_num
  · rw [h1]
    simp [GoSlice.toList, List.take_replicate]
  · rw [hc1]; simp
  · rw [hc2]; simp

/-- The GetRecentNotes parse loop with a non-positive limit collects
every clean title. -/
theorem grnLoop_nonpos (now : GoTime) (limit : Int) (hl : limit ≤ 0)
    (ts : List (List Char)) :
    ∀ count : Int,
      grnLoop now limit ts count =
        ((ts.map goTrimSpace).filter (fun t => t ≠ [])).map (mkListNote now) := by
  induction ts with
  | nil => intro count; simp [grnLoop]
  | cons t rest ih =>
    intro count
    by_cases h2 : goTrimSpace t = []
    · simp [grnLoop, h2, ih count]
    · have hcond : ¬(limit > 0 ∧ count + 1 ≥ limit) := by omega
      simp only [grnLoop]
      rw [if_neg h2, if_neg hcond, ih (count + 1), List.map_cons,
        List.filter_cons_of_pos (by simpa using h2), List.map_cons]

/-- The GetRecentNotes parse loop with a strictly positive limit
collects the first limit-minus-count clean titles. -/
theorem grnLoop_pos (now : GoTime) (limit : Int) (hl : 0 < limit)
    (ts : List (List Char)) :
    ∀ count : Int, count < limit →
      grnLoop now limit ts count =
        (((ts.map goTrimSpace).filter (fun t => t ≠ [])).map
          (mkListNote now)).take (limit - count).toNat := by
  induction ts with
  | nil => intro count _; simp [grnLoop]
  | cons t rest ih =>
    intro count hc
    by_cases h2 : goTrimSpace t = []
    · simp [grnLoop, h2, ih count hc]
    · have hsucc : (limit - count).toNat = (limit - (count + 1)).toNat + 1 := by
        omega
      simp only [grnLoop]
      rw [if_neg h2, List.map_cons,
        List.filter_cons_of_pos (by simpa using h2), List.map_cons,
        hsucc, List.take_succ_cons]
      by_cases h3 : limit > 0 ∧ count + 1 ≥ limit
      · have h0 : (limit - (count + 1)).toNat = 0 := by omega
        rw [if_pos h3, h0, List.take_zero]
      · have h4 : count + 1 < limit := by omega
        rw [if_neg h3, ih (count + 1) h4]

/-- C10: GetRecentNotes applies no cap when the limit is zero or
negative, returning a Note for every non-empty parsed title; a strictly
positive limit bounds the result to the first limit clean titles in
output order. -/
theorem getRecentNotes_limit_semantics (now : GoTime) (stdout : String)
    (limit : Int) :
    (limit ≤ 0 →
      (GetRecentNotes now (constExec stdout) limit).1 =
        .mk ((cleanTitles ", ".toList stdout).map (mkListNote now))) ∧
    (0 < limit →
      (GetRecentNotes now (constExec stdout) limit).1 =
        .mk (((cleanTitles ", ".toList stdout).map (mkListNote now)).take
          limit.toNat)) ∧
    (GetRecentNotes now (constExec stdout) limit).2 = none := by
  have hred : GetRecentNotes now (constExec stdout) limit =
      (if goTrimSpace stdout.data = [] then (GoSlice.mk [], none)
       else (.mk (grnLoop now limit
         (goSplit ", ".toList (goTrimSpace stdout.data)) 0), none)) := rfl
  rw [hred]
  by_cases h : goTrimSpace stdout.data = []
  · rw [if_pos h]
    have hclean : cleanTitles ", ".toList stdout = [] := by
      unfold cleanTitles
      rw [h]
      decide
    rw [hclean]
    refine ⟨fun _ => rfl, fun _ => ?_, rfl⟩
    rw [show ((([] : List (List Char)).map (mkListNote now)).take limit.toNat) =
      [] from List.take_nil]
  · rw [if_neg h]
    refine ⟨fun hl => ?_, fun hl => ?_, rfl⟩
    · rw [grnLoop_nonpos now limit hl _ 0]
      rfl
    · rw [grnLoop_pos now limit hl _ 0 hl]
      have h0 : limit - 0 = limit := by omega
      rw [h0]
      rfl

/-- C10 witness: at limit three and five clean titles the result is the
first three. -/
theorem getRecentNotes_limit_semantics_witness :
    (0 : Int) < 3 ∧
    (GetRecentNotes now0 (constExec "a, b, c, d, e") 3).1 =
      .mk (((cleanTitles ", ".toList "a, b, c, d, e").map (mkListNote now0)).take
        (3 : Int).toNat) :=
  ⟨by decide,
   (getRecentNotes_limit_semantics now0 "a, b, c, d, e" 3).2.1 (by decide)⟩

/-- Every note produced by the uncapped title loop is a list-result
note for some title. -/
theorem mem_titleLoop {now : GoTime} {ts : List (List Char)} {nt : Note} :
    nt ∈ titleLoop now ts → ∃ t, nt = mkListNote now t := by
  induction ts with
  | nil => intro hm; simp [titleLoop] at hm
  | cons t rest ih =>
    intro hm
    simp only [titleLoop] at hm
    by_cases h : goTrimSpace t = []
    · rw [if_pos h] at hm
      exact ih hm
    · rw [if_neg h] at hm
      rcases List.mem_cons.mp hm with h1 | h1
      · exact ⟨_, h1⟩
      · exact ih h1

/-- Every note produced by the capped search loop is a list-result note
for some title. -/
theorem mem_psrLoop {now : GoTime} {ts : List (List Char)} {nt : Note} :
    ∀ count : Nat, nt ∈ psrLoop now ts count → ∃ t, nt = mkListNote now t := by
  induction ts with
  | nil => intro count hm; simp [psrLoop] at hm
  | cons t rest ih =>
    intro count hm
    simp only [psrLoop] at hm
    by_cases h : goTrimSpace t = []
    · rw [if_pos h] at hm
      exact ih count hm
    · rw [if_neg h] at hm
      by_cases h3 : count + 1 ≥ 100
      · rw [if_pos h3] at hm
        rcases List.mem_singleton.mp hm with h1
        exact ⟨_, h1⟩
      · rw [if_neg h3] at hm
        rcases List.mem_cons.mp hm with h1 | h1
        · exact ⟨_, h1⟩
        · exact ih (count + 1) h1

/-- Every note produced by the limited recent-notes loop is a
list-result note for some title. -/
theorem mem_grnLoop {now : GoTime} {limit : Int} {ts : List (List Char)}
    {nt : Note} :
    ∀ count : Int, nt ∈ grnLoop now limit ts count →
      ∃ t, nt = mkListNote now t := by
  induction ts with
  | nil => intro count hm; simp [grnLoop] at hm
  | cons t rest ih =>
    intro count hm
    simp only [grnLoop] at hm
    by_cases h : goTrimSpace t = []
    · rw [if_pos h] at hm
      exact ih count hm
    · rw [if_neg h] at hm
      by_cases h3 : limit > 0 ∧ count + 1 ≥ limit
      · rw [if_pos h3] at hm
        rcases List.mem_singleton.mp hm with h1
        exact ⟨_, h1⟩
      · rw [if_neg h3] at hm
        rcases List.mem_cons.mp hm with h1 | h1
        · exact ⟨_, h1⟩
        · exact ih (count + 1) h1

/-- Every note in a parseSearchResults result is a list-result note. -/
theorem mem_parseSearchResults {now : GoTime} {s : String} {nt : Note} :
    nt ∈ (parseSearchResults now s).toList → ∃ t, nt = mkListNote now t := by
  unfold parseSearchResults
  by_cases h : goTrimSpace s.data = []
  · rw [if_pos h]
    intro hm
    simp [GoSlice.toList] at hm
  · rw [if_neg h]
    intro hm
    exact mem_psrLoop 0 hm

/-- C7 (amended): every Note returned by the listing and search
operations that do not fetch full records carries data only in its
title — the content is the empty string, tags are empty, both loose
timestamps equal the wall-clock instant of the call (synthesized, not
fetched), the aliased timestamp pair stays zero-valued, the id is
synthesized from the same wall clock, and folder and both flags stay
zero-valued. -/
theorem listNotes_only_title_populated (now : GoTime)
    (stdout query folder : String) (opts : SearchOptions) (limit : Int)
    (nt : Note) :
    (nt ∈ (SearchNotes now (constExec stdout) query).1.toList ∨
     nt ∈ (SearchNotesAdvanced now (constExec stdout) opts).1.toList ∨
     nt ∈ (GetRecentNotes now (constExec stdout) limit).1.toList ∨
     nt ∈ (GetNotesInFolder now (constExec stdout) folder).1.toList) →
    nt.content = "" ∧ nt.tags = [] ∧ nt.created = now ∧ nt.modified = now ∧
    nt.creationDate = zeroTime ∧ nt.modificationDate = zeroTime ∧
    nt.id = toString (unixMilli now) ∧ nt.folder = "" ∧
    nt.shared = false ∧ nt.passwordProtected = false := by
  have key : (∃ t, nt = mkListNote now t) →
      nt.content = "" ∧ nt.tags = [] ∧ nt.created = now ∧ nt.modified = now ∧
      nt.creationDate = zeroTime ∧ nt.modificationDate = zeroTime ∧
      nt.id = toString (unixMilli now) ∧ nt.folder = "" ∧
      nt.shared = false ∧ nt.passwordProtected = false := by
    rintro ⟨t, rfl⟩
    exact ⟨rfl, rfl, rfl, rfl, rfl, rfl, rfl, rfl, rfl, rfl⟩
  intro hm
  rcases hm with hm | hm | hm | hm
  · have hred : SearchNotes now (constExec stdout) query =
        (if goTrimSpace stdout.data = [] then (GoSlice.mk [], none)
         else (.mk (titleLoop now (goSplit "|||".toList
           (goTrimSpace stdout.data))), none)) := rfl
    rw [hred] at hm
    by_cases h : goTrimSpace stdout.data = []
    · rw [if_pos h] at hm
      simp [GoSlice.toList] at hm
    · rw [if_neg h] at hm
      exact key (mem_titleLoop hm)
  · unfold SearchNotesAdvanced at hm
    cases hv : validateSearchIn
        (if opts.searchIn = "" then SearchInTitle else opts.searchIn) with
    | some e =>
      rw [hv] at hm
      simp [GoSlice.toList] at hm
    | none =>
      rw [hv] at hm
      exact key (mem_parseSearchResults hm)
  · have hred : GetRecentNotes now (constExec stdout) limit =
        (if goTrimSpace stdout.data = [] then (GoSlice.mk [], none)
         else (.mk (grnLoop now limit
           (goSplit ", ".toList (goTrimSpace stdout.data)) 0), none)) := rfl
    rw [hred] at hm
    by_cases h : goTrimSpace stdout.data = []
    · rw [if_pos h] at hm
      simp [GoSlice.toList] at hm
    · rw [if_neg h] at hm
      exact key (mem_grnLoop 0 hm)
  · have hred : GetNotesInFolder now (constExec stdout) folder =
        (if goTrimSpace stdout.data = [] then (GoSlice.mk [], none)
         else (.mk (titleLoop now (goSplit ", ".toList
           (goTrimSpace stdout.data))), none)) := rfl
    rw [hred] at hm
    by_cases h : goTrimSpace stdout.data = []
    · rw [if_pos h] at hm
      simp [GoSlice.toList] at hm
    · rw [if_neg h] at hm
      exact key (mem_titleLoop hm)

/-- C7 witness: a concrete note from a concrete SearchNotes call has
empty content, the synthetic id and the wall-clock timestamps. -/
theorem listNotes_only_title_populated_witness :
    (mkListNote now0 ['A'] ∈
      (SearchNotes now0 (constExec "A") "q").1.toList) ∧
    (mkListNote now0 ['A']).content = "" ∧
    (mkListNote now0 ['A']).created = now0 ∧
    (mkListNote now0 ['A']).creationDate = zeroTime :=
  ⟨by decide,
   ((listNotes_only_title_populated now0 "A" "q" "" optsInvalid 0
      (mkListNote now0 ['A'])) (Or.inl (by decide))).1,
   (((listNotes_only_title_populated now0 "A" "q" "" optsInvalid 0
      (mkListNote now0 ['A'])) (Or.inl (by decide))).2.2).1,
   ((((listNotes_only_title_populated now0 "A" "q" "" optsInvalid 0
      (mkListNote now0 ['A'])) (Or.inl (by decide))).2.2).2.2).1⟩

/-- C7 (counterexample to the claim as stated): the creation and
modification timestamps of list results are synthesized from the wall
clock at the call — the same bridge output parsed at two different
instants yields different notes, and the created field equals the call
instant, so the dates are neither absent nor fetched values. -/
theorem listNotes_dates_synthesized :
    ((SearchNotes now0 (constExec "A") "q").1 ==
      (SearchNotes now1 (constExec "A") "q").1) = false ∧
    ((SearchNotes now0 (constExec "A") "q").1.toList.map Note.created) =
      [now0] ∧
    ((SearchNotes now1 (constExec "A") "q").1.toList.map Note.created) =
      [now1] := by
  refine ⟨?_, ?_, ?_⟩ <;> decide

/-- A parseSearchResults value is always a defined slice. -/
theorem parseSearchResults_isDefined (now : GoTime) (s : String) :
    (parseSearchResults now s).isDefined = true := by
  unfold parseSearchResults
  split <;> rfl

/-- A parseAttachments value is always a defined slice. -/
theorem parseAttachments_isDefined (s : String) :
    (parseAttachments s).isDefined = true := by
  unfold parseAttachments
  split <;> rfl

/-- C9: every list-returning operation returns a defined (non-nil)
slice on every path; on every path either no error is returned or the
error is paired with the empty defined slice (so every error return
carries an empty, iterable list); and with an executor whose bridge
output is empty, every operation succeeds with the empty defined slice
(SearchNotesAdvanced returns the empty defined slice there whether the
scope validates or not). -/
theorem list_operations_never_nil (now : GoTime) (ex : Exec)
    (query folder title : String) (opts : SearchOptions) (limit : Int) :
    ((SearchNotes now ex query).1.isDefined = true ∧
     (SearchNotesAdvanced now ex opts).1.isDefined = true ∧
     (ListFolders ex).1.isDefined = true ∧
     (GetRecentNotes now ex limit).1.isDefined = true ∧
     (GetNotesInFolder now ex folder).1.isDefined = true ∧
     (GetNoteAttachments ex title).1.isDefined = true) ∧
    (((SearchNotes now ex query).2 = none ∨
        (SearchNotes now ex query).1 = .mk []) ∧
     ((SearchNotesAdvanced now ex opts).2 = none ∨
        (SearchNotesAdvanced now ex opts).1 = .mk []) ∧
     ((ListFolders ex).2 = none ∨ (ListFolders ex).1 = .mk []) ∧
     ((GetRecentNotes now ex limit).2 = none ∨
        (GetRecentNotes now ex limit).1 = .mk []) ∧
     ((GetNotesInFolder now ex folder).2 = none ∨
        (GetNotesInFolder now ex folder).1 = .mk []) ∧
     ((GetNoteAttachments ex title).2 = none ∨
        (GetNoteAttachments ex title).1 = .mk [])) ∧
    (SearchNotes now (constExec "") query = (.mk [], none) ∧
     (SearchNotesAdvanced now (constExec "") opts).1 = .mk [] ∧
     ListFolders (constExec "") = (.mk [], none) ∧
     GetRecentNotes now (constExec "") limit = (.mk [], none) ∧
     GetNotesInFolder now (constExec "") folder = (.mk [], none) ∧
     GetNoteAttachments (constExec "") title = (.mk [], none)) := by
  refine ⟨⟨?_, ?_, ?_, ?_, ?_, ?_⟩, ⟨?_, ?_, ?_, ?_, ?_, ?_⟩,
    ?_, ?_, ?_, ?_, ?_, ?_⟩
  · unfold SearchNotes
    split
    · rfl
    · split <;> rfl
  · unfold SearchNotesAdvanced
    split
    · rfl
    · split
      · rfl
      · exact parseSearchResults_isDefined now _
  · unfold ListFolders
    split
    · rfl
    · split <;> rfl
  · unfold GetRecentNotes
    split
    · rfl
    · split <;> rfl
  · unfold GetNotesInFolder
    split
    · rfl
    · split <;> rfl
  · unfold GetNoteAttachments
    split
    · rfl
    · exact parseAttachments_isDefined _
  · unfold SearchNotes
    split
    · exact Or.inr rfl
    · split
      · exact Or.inl rfl
      · exact Or.inl rfl
  · unfold SearchNotesAdvanced
    split
    · exact Or.inr rfl
    · split
      · exact Or.inr rfl
      · exact Or.inl rfl
  · unfold ListFolders
    split
    · exact Or.inr rfl
    · split
      · exact Or.inl rfl
      · exact Or.inl rfl
  · unfold GetRecentNotes
    split
    · exact Or.inr rfl
    · split
      · exact Or.inl rfl
      · exact Or.inl rfl
  · unfold GetNotesInFolder
    split
    · exact Or.inr rfl
    · split
      · exact Or.inl rfl
      · exact Or.inl rfl
  · unfold GetNoteAttachments
    split
    · exact Or.inr rfl
    · exact Or.inl rfl
  · rfl
  · unfold SearchNotesAdvanced
    split
    · rfl
    · rfl
  · rfl
  · rfl
  · rfl
  · rfl

/-- C6 (amended): SearchNotesAdvanced defaults an empty scope to title;
any other scope value outside title, body, both is rejected before any
script is built or executed — the result is the validation error (a
plain formatted error value, not the ErrInvalidInput sentinel) paired
with an empty defined slice, and it does not depend on the executor at
all. -/
theorem searchNotesAdvanced_invalid_scope_rejected (now : GoTime)
    (e1 e2 : Exec) (opts : SearchOptions) :
    ((if opts.searchIn = "" then SearchInTitle else opts.searchIn) ≠ SearchInTitle ∧
     (if opts.searchIn = "" then SearchInTitle else opts.searchIn) ≠ SearchInBody ∧
     (if opts.searchIn = "" then SearchInTitle else opts.searchIn) ≠ SearchInBoth →
      SearchNotesAdvanced now e1 opts =
        (.mk [], some (.errorf ("invalid SearchIn value: " ++
          percentQ (if opts.searchIn = "" then SearchInTitle else opts.searchIn) ++
          " (must be \x27title\x27, \x27body\x27, or \x27both\x27)"))) ∧
      SearchNotesAdvanced now e1 opts = SearchNotesAdvanced now e2 opts) ∧
    (opts.searchIn = "" →
      SearchNotesAdvanced now e1 opts =
        SearchNotesAdvanced now e1 { opts with searchIn := SearchInTitle }) := by
  constructor
  · intro hinv
    have hv : validateSearchIn
        (if opts.searchIn = "" then SearchInTitle else opts.searchIn) =
        some (.errorf ("invalid SearchIn value: " ++
          percentQ (if opts.searchIn = "" then SearchInTitle else opts.searchIn) ++
          " (must be \x27title\x27, \x27body\x27, or \x27both\x27)")) := by
      unfold validateSearchIn
      rw [if_pos hinv]
    constructor
    · unfold SearchNotesAdvanced
      rw [hv]
    · unfold SearchNotesAdvanced
      rw [hv]
  · intro h0
    rcases opts with ⟨q, s0, f, df, dt⟩
    have h1 : s0 = "" := h0
    subst h1
    rfl

/-- C6 witness: executor independence of the rejection at the concrete
invalid scope. -/
theorem searchNotesAdvanced_invalid_scope_rejected_witness :
    SearchNotesAdvanced now0 (constExec "") optsInvalid =
      SearchNotesAdvanced now0 (constExec "other") optsInvalid :=
  ((searchNotesAdvanced_invalid_scope_rejected now0 (constExec "")
    (constExec "other") optsInvalid).1 (by decide)).2

/-- C6 (counterexample to the claim as stated): the rejection error for
an invalid scope is a plain formatted error, not the ErrInvalidInput
sentinel the spec's closed error taxonomy names — the returned error
compares unequal to ErrInvalidInput. -/
theorem searchNotesAdvanced_invalid_scope_plain_error :
    ((SearchNotesAdvanced now0 (constExec "") optsInvalid).2 ==
      some ErrInvalidInput) = false ∧
    (SearchNotesAdvanced now0 (constExec "") optsInvalid).2 =
      some (.errorf
        "invalid SearchIn value: \"invalid\" (must be \x27title\x27, \x27body\x27, or \x27both\x27)") ∧
    (SearchNotesAdvanced now0 (constExec "") optsInvalid).1 = .mk [] := by
  refine ⟨?_, ?_, ?_⟩ <;> decide

/-- String append is associative (list append under the hood). -/
theorem strAssoc (a b c : String) : a ++ b ++ c = a ++ (b ++ c) := by
  rcases a with ⟨la⟩
  rcases b with ⟨lb⟩
  rcases c with ⟨lc⟩
  show String.mk ((la ++ lb) ++ lc) = String.mk (la ++ (lb ++ lc))
  exact congrArg String.mk (List.append_assoc la lb lc)

/-- The empty string is a right identity of append. -/
theorem strNilR (a : String) : a ++ "" = a := by
  rcases a with ⟨la⟩
  show String.mk (la ++ []) = String.mk la
  exact congrArg String.mk (List.append_nil la)

/-- Reassociation towards the left, to merge adjacent literals. -/
theorem strAssocRev (a b c : String) : a ++ (b ++ c) = a ++ b ++ c :=
  (strAssoc a b c).symm

/-- C5: for scope body or both, buildSearchScript selects the
pre-filtered script exactly when a folder or date filter is present —
that script narrows the candidate set by folder first and applies the
date rejection before the contains predicate inside the loop — and
selects the unfiltered full-scan shape iterating the entire note
collection when no filter is present. -/
theorem buildSearchScript_body_scope_shapes (opts : SearchOptions) (si : String)
    (h : si = SearchInBody ∨ si = SearchInBoth) :
    (needsFiltering opts = true →
      buildSearchScript si opts =
        buildFilteredBodySearch (escapeForAppleScriptS opts.query) si opts ∧
      buildFilteredBodySearch (escapeForAppleScriptS opts.query) si opts =
        specFilteredScript (escapeForAppleScriptS opts.query) si opts) ∧
    (needsFiltering opts = false →
      buildSearchScript si opts =
        specFullScanScript (escapeForAppleScriptS opts.query) si) := by
  constructor
  · intro hf
    constructor
    · rcases h with h | h <;> subst h <;>
        simp [buildSearchScript, SearchInBody, SearchInBoth, hf]
    · rcases opts with ⟨q, s0, f, df, dt⟩
      rcases h with h | h <;> subst h <;>
        by_cases hfold : f = "" <;> cases df <;> cases dt <;>
        simp [buildFilteredBodySearch, specFilteredScript, specCandidatePart,
          specDatePart, specPredicatePart, SearchInBody, SearchInBoth, hfold,
          strAssoc, strNilR]
  · intro hf
    rcases h with h | h <;> subst h <;>
      simp [buildSearchScript, SearchInTitle, SearchInBody, SearchInBoth, hf,
        buildBodySearch, buildBothSearch, specFullScanScript,
        specPredicatePart, strAssocRev]

/-- C5 witness: at scope body with a folder filter the built script is
the pre-filtered shape. -/
theorem buildSearchScript_body_scope_shapes_witness :
    buildSearchScript "body" ⟨"q", "body", "Work", none, none⟩ =
      specFilteredScript (escapeForAppleScriptS "q") "body"
        ⟨"q", "body", "Work", none, none⟩ := by
  have h := buildSearchScript_body_scope_shapes ⟨"q", "body", "Work", none, none⟩
    "body" (Or.inl rfl)
  have h2 := h.1 (by decide)
  exact h2.1.trans h2.2

/-- A true isPrefixOf test yields an append decomposition. -/
theorem prefixOfToAppend : ∀ {l s : List Char}, l.isPrefixOf s = true →
    ∃ t, l ++ t = s := by
  intro l
  induction l with
  | nil => intro s _; exact ⟨s, rfl⟩
  | cons a as ih =>
    intro s h
    cases s with
    | nil => simp [List.isPrefixOf] at h
    | cons b bs =>
      simp only [List.isPrefixOf, Bool.and_eq_true, beq_iff_eq] at h
      obtain ⟨t, ht⟩ := ih h.2
      exact ⟨t, by rw [List.cons_append, h.1, ht]⟩

/-- isPrefixOf holds of an appended extension. -/
theorem appendToPrefixOf : ∀ (l t : List Char), l.isPrefixOf (l ++ t) = true := by
  intro l t
  induction l with
  | nil => simp [List.isPrefixOf]
  | cons a as ih => simp [List.isPrefixOf, ih]

/-- A true isSuffixOf test yields an append decomposition. -/
theorem suffixOfToAppend {l s : List Char} (h : l.isSuffixOf s = true) :
    ∃ t, t ++ l = s := by
  unfold List.isSuffixOf at h
  obtain ⟨t, ht⟩ := prefixOfToAppend h
  refine ⟨t.reverse, ?_⟩
  have h2 := congrArg List.reverse ht
  simpa [List.reverse_append] using h2

/-- isSuffixOf holds of a prepended extension. -/
theorem appendToSuffixOf (t l : List Char) : l.isSuffixOf (t ++ l) = true := by
  unfold List.isSuffixOf
  rw [List.reverse_append]
  exact appendToPrefixOf _ _

/-- takeWhile and dropWhile on an all-true block followed by a failing
element. -/
theorem takeWhile_app (p : Char → Bool) (ws : List Char) (x : Char)
    (r : List Char) (hws : ∀ c ∈ ws, p c = true) (hx : p x = false) :
    (ws ++ x :: r).takeWhile p = ws ∧ (ws ++ x :: r).dropWhile p = x :: r := by
  induction ws with
  | nil =>
    constructor
    · simp [List.takeWhile_cons, hx]
    · simp [List.dropWhile_cons, hx]
  | cons w ws ih =>
    have hw : p w = true := hws w (by simp)
    have ih2 := ih (fun c hc => hws c (by simp [hc]))
    constructor
    · simp [List.takeWhile_cons, hw, ih2.1]
    · simp [List.dropWhile_cons, hw, ih2.2]

/-- The fixed-position tail matcher agrees with the declarative
decomposition not-whitespace-found-boundary. -/
theorem notFoundHere_iff (l : List Char) :
    notFoundHere l = true ↔
      ∃ ws post, l = "not".toList ++ (ws ++ ("found".toList ++ post)) ∧
        ws ≠ [] ∧ (∀ c ∈ ws, isRegexSpace c = true) ∧
        (post = [] ∨ ∃ d r2, post = d :: r2 ∧ isWordChar d = false) := by
  constructor
  · intro hm
    unfold notFoundHere at hm
    simp only [Bool.and_eq_true] at hm
    obtain ⟨hpre, hne, hfound, hbound⟩ := hm
    obtain ⟨t, ht⟩ := prefixOfToAppend hpre
    have hdrop : l.drop 3 = t := by
      rw [← ht]
      exact List.drop_left' rfl
    rw [hdrop] at hne hfound hbound
    obtain ⟨post, hpost⟩ := prefixOfToAppend hfound
    have hdrop5 : (t.dropWhile isRegexSpace).drop 5 = post := by
      rw [← hpost]
      exact List.drop_left' rfl
    rw [hdrop5] at hbound
    refine ⟨t.takeWhile isRegexSpace, post, ?_, ?_, ?_, ?_⟩
    · rw [← ht, hpost, List.takeWhile_append_dropWhile]
    · intro habs
      rw [habs] at hne
      simp at hne
    · intro c hc
      exact List.mem_takeWhile_imp hc
    · cases hp : post with
      | nil => exact Or.inl rfl
      | cons d r2 =>
        rw [hp] at hbound
        exact Or.inr ⟨d, r2, rfl, by simpa using hbound⟩
  · rintro ⟨ws, post, rfl, hne, hsp, hb⟩
    unfold notFoundHere
    simp only [Bool.and_eq_true]
    have hdrop : ("not".toList ++ (ws ++ ("found".toList ++ post))).drop 3 =
        ws ++ ("found".toList ++ post) := List.drop_left' rfl
    have hsplit := takeWhile_app isRegexSpace ws 'f' ("ound".toList ++ post)
      hsp (by decide)
    have hform : ws ++ ('f' :: ("ound".toList ++ post)) =
        ws ++ ("found".toList ++ post) := rfl
    rw [hform] at hsplit
    refine ⟨?_, ?_, ?_, ?_⟩
    · exact appendToPrefixOf _ _
    · rw [hdrop, hsplit.1]
      simpa using hne
    · rw [hdrop, hsplit.2]
      exact appendToPrefixOf _ _
    · rw [hdrop, hsplit.2]
      have hdrop5 : ('f' :: ("ound".toList ++ post)).drop 5 = post := by
        have : 'f' :: ("ound".toList ++ post) = "found".toList ++ post := rfl
        rw [this]
        exact List.drop_left' rfl
      rw [hdrop5]
      rcases hb with rfl | ⟨d, r2, rfl, hw⟩
      · simp
      · simp [hw]

/-- The gap scanner agrees with the declarative decomposition: a
newline-free gap whose last character (or, if empty, the preceding
character) is not a word character, followed by the tail matcher. -/
theorem scanGap_iff (prev : Char) (l : List Char) :
    scanGap prev l = true ↔
      ∃ gap rest, l = gap ++ rest ∧ (∀ c ∈ gap, c ≠ '\n') ∧
        ((gap = [] ∧ isWordChar prev = false) ∨
         (∃ g, gap.getLast? = some g ∧ isWordChar g = false)) ∧
        notFoundHere rest = true := by
  induction l generalizing prev with
  | nil =>
    constructor
    · intro h
      simp [scanGap] at h
    · rintro ⟨gap, rest, heq, _, _, hnf⟩
      obtain ⟨hg, hr⟩ := List.append_eq_nil.mp heq.symm
      rw [hr] at hnf
      exact absurd hnf (by decide)
  | cons c cs ih =>
    constructor
    · intro h
      unfold scanGap at h
      rw [Bool.or_eq_true, Bool.and_eq_true, Bool.and_eq_true] at h
      rcases h with ⟨hw, hnf⟩ | ⟨hc, hsg⟩
      · exact ⟨[], c :: cs, rfl, by simp, Or.inl ⟨rfl, by simpa using hw⟩, hnf⟩
      · obtain ⟨gap, rest, heq, hnl, hb, hnf⟩ := (ih c).mp hsg
        refine ⟨c :: gap, rest, by rw [heq]; rfl, ?_, ?_, hnf⟩
        · intro x hx
          rcases List.mem_cons.mp hx with rfl | hx2
          · simpa using hc
          · exact hnl x hx2
        · rcases hb with ⟨rfl, hwc⟩ | ⟨g, hg, hgw⟩
          · exact Or.inr ⟨c, rfl, hwc⟩
          · refine Or.inr ⟨g, ?_, hgw⟩
            rw [show c :: gap = [c] ++ gap from rfl, List.getLast?_append, hg]
            rfl
    · rintro ⟨gap, rest, heq, hnl, hb, hnf⟩
      unfold scanGap
      rw [Bool.or_eq_true, Bool.and_eq_true, Bool.and_eq_true]
      cases gap with
      | nil =>
        rcases hb with ⟨_, hw⟩ | ⟨g, hg, _⟩
        · left
          simp only [List.nil_append] at heq
          rw [heq]
          exact ⟨by simp [hw], hnf⟩
        · simp at hg
      | cons p gap2 =>
        right
        have h1 : c = p := by
          have := congrArg List.head? heq
          simpa using this
        have h2 : cs = gap2 ++ rest := by
          have := congrArg List.tail heq
          simpa using this
        subst h1
        refine ⟨?_, ?_⟩
        · have := hnl c (by simp)
          simpa using this
        · apply (ih c).mpr
          refine ⟨gap2, rest, h2, fun x hx => hnl x (by simp [hx]), ?_, hnf⟩
          rcases hb with ⟨habs, _⟩ | ⟨g, hg, hgw⟩
          · cases habs
          · cases gap2 with
            | nil =>
              have hgc : g = c := by simpa using hg.symm
              exact Or.inl ⟨rfl, hgc ▸ hgw⟩
            | cons q gap3 =>
              refine Or.inr ⟨g, ?_, hgw⟩
              simpa using hg

/-- The keyword scanner agrees with the existence of a split around the
keyword followed by a matching gap. -/
theorem kwScan_iff (kw : List Char) (kwLast : Char) (l : List Char)
    (hkw : kw ≠ []) :
    kwScan kw kwLast l = true ↔
      ∃ pre mid, l = pre ++ (kw ++ mid) ∧ scanGap kwLast mid = true := by
  induction l with
  | nil =>
    constructor
    · intro h
      simp [kwScan] at h
    · rintro ⟨pre, mid, heq, _⟩
      obtain ⟨hp, hkm⟩ := List.append_eq_nil.mp heq.symm
      exact (hkw (List.append_eq_nil.mp hkm).1).elim
  | cons c cs ih =>
    constructor
    · intro h
      unfold kwScan at h
      rw [Bool.or_eq_true, Bool.and_eq_true] at h
      rcases h with ⟨hp, hsg⟩ | h
      · obtain ⟨t, ht⟩ := prefixOfToAppend hp
        have hdrop : (c :: cs).drop kw.length = t := by
          rw [← ht, List.drop_left]
        rw [hdrop] at hsg
        exact ⟨[], t, by rw [← ht]; rfl, hsg⟩
      · obtain ⟨pre, mid, heq, hsg⟩ := ih.mp h
        exact ⟨c :: pre, mid, by rw [heq]; rfl, hsg⟩
    · rintro ⟨pre, mid, heq, hsg⟩
      unfold kwScan
      rw [Bool.or_eq_true, Bool.and_eq_true]
      cases pre with
      | nil =>
        left
        simp only [List.nil_append] at heq
        refine ⟨by rw [heq]; exact appendToPrefixOf _ _, ?_⟩
        rw [heq, List.drop_left]
        exact hsg
      | cons p pre2 =>
        right
        have h1 : c = p := by
          have := congrArg List.head? heq
          simpa using this
        have h2 : cs = pre2 ++ (kw ++ mid) := by
          have := congrArg List.tail heq
          simpa using this
        exact ih.mpr ⟨pre2, mid, h2, hsg⟩

/-- The full matcher of the not-found regexes agrees with the
spec-worded declarative decomposition, for a non-empty keyword ending
in a word character (note and folder both do). -/
theorem matchNotFound_iff (kw : List Char) (kwLast : Char) (s : List Char)
    (hkw : kw ≠ []) (hword : isWordChar kwLast = true) :
    matchNotFoundPattern kw kwLast s = true ↔ NotFoundDecomp kw s := by
  unfold matchNotFoundPattern NotFoundDecomp
  rw [kwScan_iff kw kwLast _ hkw]
  constructor
  · rintro ⟨pre, mid, heq, hsg⟩
    rw [scanGap_iff] at hsg
    obtain ⟨gap, rest, rfl, hnl, hb, hnf⟩ := hsg
    rw [notFoundHere_iff] at hnf
    obtain ⟨ws, post, rfl, hwne, hwsp, hbnd⟩ := hnf
    have hglast : ∃ g, gap.getLast? = some g ∧ isWordChar g = false := by
      rcases hb with ⟨_, hwprev⟩ | hb2
      · rw [hword] at hwprev
        cases hwprev
      · exact hb2
    have hgne : gap ≠ [] := by
      obtain ⟨g, hg, _⟩ := hglast
      intro habs
      rw [habs] at hg
      cases hg
    exact ⟨pre, gap, ws, post, heq, hgne, hnl, hglast, hwne, hwsp, hbnd⟩
  · rintro ⟨pre, gap, ws, post, heq, hgne, hnl, hglast, hwne, hwsp, hbnd⟩
    refine ⟨pre, gap ++ ("not".toList ++ (ws ++ ("found".toList ++ post))),
      heq, ?_⟩
    rw [scanGap_iff]
    exact ⟨gap, _, rfl, hnl, Or.inr hglast,
      (notFoundHere_iff _).mpr ⟨ws, post, rfl, hwne, hwsp, hbnd⟩⟩

/-- C4 (amended): DetectError checks in first-match-wins order — a
deadline-exceeded execution error yields ScriptTimeout regardless of
diagnostics (a cancellation error does not); otherwise empty
diagnostics return the original error unchanged; otherwise,
case-insensitively, the -1728 fault code or the phrase event-not-
handled yields AppNotRunning, then not-allowed or -1743 yields
PermissionDenied, then the note-not-found pattern yields NoteNotFound,
then the folder-not-found pattern yields FolderNotFound, and with no
match the original error is returned unchanged. -/
theorem detectError_first_match_order (stderr : List Char) (err : GoError) :
    (errorsIs err GoError.deadlineExceeded = true →
      DetectError stderr err = ErrScriptTimeout) ∧
    (errorsIs err GoError.deadlineExceeded = false →
      (stderr = [] → DetectError stderr err = err) ∧
      (stderr ≠ [] →
        (containsCI "-1728".toList stderr = true ∨
         containsCI "event not handled".toList stderr = true →
          DetectError stderr err = ErrNotesAppNotRunning) ∧
        (containsCI "-1728".toList stderr = false →
         containsCI "event not handled".toList stderr = false →
          (containsCI "not allowed".toList stderr = true ∨
           containsCI "-1743".toList stderr = true →
            DetectError stderr err = ErrPermissionDenied) ∧
          (containsCI "not allowed".toList stderr = false →
           containsCI "-1743".toList stderr = false →
            (NotFoundDecomp "note".toList stderr →
              DetectError stderr err = ErrNoteNotFound) ∧
            (¬ NotFoundDecomp "note".toList stderr →
              (NotFoundDecomp "folder".toList stderr →
                DetectError stderr err = ErrFolderNotFound) ∧
              (¬ NotFoundDecomp "folder".toList stderr →
                DetectError stderr err = err)))))) := by
  have e1 : containsCI "-1728".toList stderr =
      goContains "-1728".toList (stderr.map goToLower) := by
    unfold containsCI
    rw [show ("-1728".toList.map goToLower) = "-1728".toList from by decide]
  have e2 : containsCI "event not handled".toList stderr =
      goContains "event not handled".toList (stderr.map goToLower) := by
    unfold containsCI
    rw [show ("event not handled".toList.map goToLower) =
      "event not handled".toList from by decide]
  have e3 : containsCI "not allowed".toList stderr =
      goContains "not allowed".toList (stderr.map goToLower) := by
    unfold containsCI
    rw [show ("not allowed".toList.map goToLower) = "not allowed".toList
      from by decide]
  have e4 : containsCI "-1743".toList stderr =
      goContains "-1743".toList (stderr.map goToLower) := by
    unfold containsCI
    rw [show ("-1743".toList.map goToLower) = "-1743".toList from by decide]
  have en := matchNotFound_iff "note".toList 'e' stderr (by decide) (by decide)
  have ef := matchNotFound_iff "folder".toList 'r' stderr (by decide) (by decide)
  unfold DetectError
  refine ⟨?_, ?_⟩
  · intro hd
    rw [if_pos hd]
  · intro hd
    rw [if_neg (by simp [hd])]
    refine ⟨?_, ?_⟩
    · intro he
      rw [if_pos he]
    · intro he
      rw [if_neg he]
      constructor
      · intro hcon
        have hcapp : (goContains "-1728".toList (stderr.map goToLower) ||
            goContains "event not handled".toList (stderr.map goToLower)) = true := by
          rw [Bool.or_eq_true]
          rcases hcon with hc | hc
          · rw [e1] at hc
            exact Or.inl hc
          · rw [e2] at hc
            exact Or.inr hc
        rw [if_pos hcapp]
      · intro hn1 hn2
        rw [e1] at hn1
        rw [e2] at hn2
        have hcappF : (goContains "-1728".toList (stderr.map goToLower) ||
            goContains "event not handled".toList (stderr.map goToLower)) = false := by
          rw [hn1, hn2]
          rfl
        rw [if_neg (Bool.eq_false_iff.mp hcappF)]
        constructor
        · intro hcon
          have hcperm : (goContains "not allowed".toList (stderr.map goToLower) ||
              goContains "-1743".toList (stderr.map goToLower)) = true := by
            rw [Bool.or_eq_true]
            rcases hcon with hc | hc
            · rw [e3] at hc
              exact Or.inl hc
            · rw [e4] at hc
              exact Or.inr hc
          rw [if_pos hcperm]
        · intro hp1 hp2
          rw [e3] at hp1
          rw [e4] at hp2
          have hcpermF : (goContains "not allowed".toList (stderr.map goToLower) ||
              goContains "-1743".toList (stderr.map goToLower)) = false := by
            rw [hp1, hp2]
            rfl
          rw [if_neg (Bool.eq_false_iff.mp hcpermF)]
          constructor
          · intro hdec
            rw [if_pos (en.mpr hdec)]
          · intro hdec
            have hnote : matchNotFoundPattern "note".toList 'e' stderr = false := by
              rw [Bool.eq_false_iff]
              intro habs
              exact hdec (en.mp habs)
            rw [if_neg (Bool.eq_false_iff.mp hnote)]
            constructor
            · intro hdecf
              rw [if_pos (ef.mpr hdecf)]
            · intro hdecf
              have hfold : matchNotFoundPattern "folder".toList 'r' stderr = false := by
                rw [Bool.eq_false_iff]
                intro habs
                exact hdecf (ef.mp habs)
              rw [if_neg (Bool.eq_false_iff.mp hfold)]

/-- C4 witness: diagnostics matching the note-not-found pattern with a
generic execution error classify as NoteNotFound. -/
theorem detectError_first_match_order_witness :
    DetectError "note \x27X\x27 not found".toList (.errorf "boom") =
      ErrNoteNotFound := by
  have h := detectError_first_match_order "note \x27X\x27 not found".toList
    (.errorf "boom")
  have h2 := (h.2 (by decide)).2 (by decide)
  have h3 := (h2.2 (by decide) (by decide)).2 (by decide) (by decide)
  exact h3.1 ((matchNotFound_iff "note".toList 'e'
    "note \x27X\x27 not found".toList (by decide) (by decide)).mp (by decide))

/-- C4 (counterexample to the claim as stated): a cancellation
execution error is not classified as ScriptTimeout — with empty
diagnostics the canceled error is returned unchanged, because the code
tests only for the deadline-exceeded error. -/
theorem detectError_cancellation_not_timeout :
    DetectError [] GoError.canceled = GoError.canceled ∧
    (DetectError [] GoError.canceled == ErrScriptTimeout) = false := by
  refine ⟨?_, ?_⟩ <;> decide

/-- A successful literal parse consumed the literal as a prefix. -/
theorem parseLit_eq {lit s r : List Char} (h : parseLit lit s = some r) :
    s = lit ++ r := by
  unfold parseLit at h
  by_cases hp : lit.isPrefixOf s = true
  · rw [if_pos hp] at h
    obtain ⟨t, ht⟩ := prefixOfToAppend hp
    cases h
    rw [← ht, List.drop_left]
  · rw [if_neg hp] at h
    cases h

/-- A successful name-table parse consumed one of the names as a
prefix. -/
theorem parseOneOf_eq : ∀ {names : List (List Char)} {s : List Char}
    {p : Nat × List Char}, parseOneOf names s = some p →
    ∃ n, n ∈ names ∧ s = n ++ p.2 := by
  intro names
  induction names with
  | nil => intro s p h; cases h
  | cons n ns ih =>
    intro s p h
    unfold parseOneOf at h
    by_cases hp : n.isPrefixOf s = true
    · rw [if_pos hp] at h
      obtain ⟨t, ht⟩ := prefixOfToAppend hp
      cases h
      exact ⟨n, by simp, by rw [← ht, List.drop_left]⟩
    · rw [if_neg hp] at h
      cases hmo : parseOneOf ns s with
      | none => rw [hmo] at h; cases h
      | some q =>
        rw [hmo] at h
        cases h
        obtain ⟨n2, hn2, heq⟩ := ih hmo
        exact ⟨n2, by simp [hn2], heq⟩

/-- A successful one-or-two-digit parse consumed a non-empty digit
prefix. -/
theorem parseNum1or2_eq {s : List Char} {p : Nat × List Char}
    (h : parseNum1or2 s = some p) : ∃ ds, ds ≠ [] ∧ s = ds ++ p.2 := by
  unfold parseNum1or2 at h
  split at h
  · cases h
  · rename_i c rest
    split at h
    · split at h
      · split at h
        · cases h
          exact ⟨[c, _], by simp, rfl⟩
        · cases h
          exact ⟨[c], by simp, rfl⟩
      · cases h
        exact ⟨[c], by simp, rfl⟩
    · cases h

/-- A successful exactly-two-digit parse consumed two characters. -/
theorem parseNum2_eq {s : List Char} {p : Nat × List Char}
    (h : parseNum2 s = some p) : ∃ a b, s = [a, b] ++ p.2 := by
  unfold parseNum2 at h
  split at h
  · rename_i a b rest
    split at h
    · cases h
      exact ⟨a, b, rfl⟩
    · cases h
  · cases h

/-- A successful exactly-four-digit parse consumed four characters. -/
theorem parseNum4_eq {s : List Char} {p : Nat × List Char}
    (h : parseNum4 s = some p) : ∃ a b c d, s = [a, b, c, d] ++ p.2 := by
  unfold parseNum4 at h
  split at h
  · rename_i a b c d rest
    split at h
    · cases h
      exact ⟨a, b, c, d, rfl⟩
    · cases h
  · cases h

/-- A successful meridiem parse consumed AM or PM as a prefix. -/
theorem parseAmPm_eq {s : List Char} {p : Bool × List Char}
    (h : parseAmPm s = some p) :
    s = "PM".toList ++ p.2 ∨ s = "AM".toList ++ p.2 := by
  unfold parseAmPm at h
  by_cases hp : "PM".toList.isPrefixOf s = true
  · rw [if_pos hp] at h
    obtain ⟨t, ht⟩ := prefixOfToAppend hp
    cases h
    left
    rw [← ht]
    show "PM".toList ++ t = "PM".toList ++ List.drop 2 ("PM".toList ++ t)
    rw [List.drop_left' (show ("PM".toList : List Char).length = 2 from rfl)]
  · rw [if_neg hp] at h
    by_cases ha : "AM".toList.isPrefixOf s = true
    · rw [if_pos ha] at h
      obtain ⟨t, ht⟩ := prefixOfToAppend ha
      cases h
      right
      rw [← ht]
      show "AM".toList ++ t = "AM".toList ++ List.drop 2 ("AM".toList ++ t)
      rw [List.drop_left' (show ("AM".toList : List Char).length = 2 from rfl)]
    · rw [if_neg ha] at h
      cases h

/-- A successful clock-tail parse means the input is some prefix
followed by AM or PM at the very end. -/
theorem goTimeParseClock_shape {y m d : Nat} {r8 : List Char} {t : GoTime}
    (h : goTimeParseClock y m d r8 = some t) :
    ∃ pre ap, (ap = "AM".toList ∨ ap = "PM".toList) ∧ r8 = pre ++ ap := by
  unfold goTimeParseClock at h
  split at h
  · exact Option.noConfusion h
  rename_i h12 r9 h9
  split at h
  · exact Option.noConfusion h
  split at h
  · exact Option.noConfusion h
  rename_i r10 h10
  split at h
  · exact Option.noConfusion h
  rename_i mm r11 h11
  split at h
  · exact Option.noConfusion h
  split at h
  · exact Option.noConfusion h
  rename_i r12 h12e
  split at h
  · exact Option.noConfusion h
  rename_i ss r13 h13
  split at h
  · exact Option.noConfusion h
  split at h
  · exact Option.noConfusion h
  rename_i r14 h14
  split at h
  · exact Option.noConfusion h
  rename_i isPM r15 h15
  split at h
  · exact Option.noConfusion h
  rename_i hend
  split at h
  · exact Option.noConfusion h
  push_neg at hend
  obtain ⟨ds1, _, e9⟩ := parseNum1or2_eq h9
  have e10 := parseLit_eq h10
  obtain ⟨m1, m2, e11⟩ := parseNum2_eq h11
  have e12 := parseLit_eq h12e
  obtain ⟨s1, s2, e13⟩ := parseNum2_eq h13
  have e14 := parseLit_eq h14
  have e15 := parseAmPm_eq h15
  rcases e15 with e15 | e15
  · refine ⟨ds1 ++ (":".toList ++ ([m1, m2] ++ (":".toList ++ ([s1, s2] ++
      " ".toList)))), "PM".toList, Or.inr rfl, ?_⟩
    rw [e9, e10, e11, e12, e13, e14, e15, hend]
    simp [List.append_assoc]
  · refine ⟨ds1 ++ (":".toList ++ ([m1, m2] ++ (":".toList ++ ([s1, s2] ++
      " ".toList)))), "AM".toList, Or.inl rfl, ?_⟩
    rw [e9, e10, e11, e12, e13, e14, e15, hend]
    simp [List.append_assoc]

/-- A successful layout parse means the input starts with a weekday
name and ends with AM or PM. -/
theorem goTimeParse_shape {s : List Char} {t : GoTime}
    (h : goTimeParse s = some t) :
    (∃ w rest, w ∈ longDayNames ∧ s = w ++ rest) ∧
    (∃ pre ap, (ap = "AM".toList ∨ ap = "PM".toList) ∧ s = pre ++ ap) := by
  unfold goTimeParse at h
  split at h
  · exact Option.noConfusion h
  rename_i wi r1 hw
  split at h
  · exact Option.noConfusion h
  rename_i r2 h2
  split at h
  · exact Option.noConfusion h
  rename_i mi r3 h3
  split at h
  · exact Option.noConfusion h
  rename_i r4 h4
  split at h
  · exact Option.noConfusion h
  rename_i dd r5 h5
  split at h
  · exact Option.noConfusion h
  rename_i r6 h6
  split at h
  · exact Option.noConfusion h
  rename_i yy r7 h7
  split at h
  · exact Option.noConfusion h
  rename_i r8 h8
  obtain ⟨w, hwmem, ew⟩ := parseOneOf_eq hw
  have e2 := parseLit_eq h2
  obtain ⟨mo, _, e3⟩ := parseOneOf_eq h3
  have e4 := parseLit_eq h4
  obtain ⟨dds, _, e5⟩ := parseNum1or2_eq h5
  have e6 := parseLit_eq h6
  obtain ⟨y1, y2, y3, y4, e7⟩ := parseNum4_eq h7
  have e8 := parseLit_eq h8
  obtain ⟨pre8, ap, hap, e9⟩ := goTimeParseClock_shape h
  constructor
  · exact ⟨w, r1, hwmem, ew⟩
  · refine ⟨w ++ (", ".toList ++ (mo ++ (" ".toList ++ (dds ++ (", ".toList ++
      ([y1, y2, y3, y4] ++ (" at ".toList ++ pre8))))))), ap, hap, ?_⟩
    rw [ew, e2, e3, e4, e5, e6, e7, e8, e9]
    simp [List.append_assoc]

/-- A layout-matching string is left unchanged by the wrapper
stripping and the whitespace trim: it starts with a weekday letter
(never the lower-case d of the wrapper, never a space) and ends with
the M of the meridiem marker (never a quote, never a space). -/
theorem goTimeParse_strips {s : List Char} {t : GoTime}
    (h : goTimeParse s = some t) :
    goTrimPre "date \"".toList s = s ∧ goTrimSuf "\"".toList s = s ∧
    goTrimSpace s = s := by
  obtain ⟨⟨w, rest, hwmem, hsw⟩, ⟨pre, ap, hap, hsap⟩⟩ := goTimeParse_shape h
  have hhead : ∃ c rest2, s = c :: rest2 ∧ goIsSpace c = false ∧ c ≠ 'd' := by
    simp only [longDayNames, List.map_cons, List.map_nil, List.mem_cons,
      List.not_mem_nil, or_false] at hwmem
    rcases hwmem with rfl | rfl | rfl | rfl | rfl | rfl | rfl
    · exact ⟨'S', _, by rw [hsw]; rfl, by decide, by decide⟩
    · exact ⟨'M', _, by rw [hsw]; rfl, by decide, by decide⟩
    · exact ⟨'T', _, by rw [hsw]; rfl, by decide, by decide⟩
    · exact ⟨'W', _, by rw [hsw]; rfl, by decide, by decide⟩
    · exact ⟨'T', _, by rw [hsw]; rfl, by decide, by decide⟩
    · exact ⟨'F', _, by rw [hsw]; rfl, by decide, by decide⟩
    · exact ⟨'S', _, by rw [hsw]; rfl, by decide, by decide⟩
  have hlast : s.getLast? = some 'M' := by
    rcases hap with rfl | rfl
    · rw [hsap, show ("AM".toList : List Char) = ['A'] ++ ['M'] from rfl,
        ← List.append_assoc]
      exact List.getLast?_concat _
    · rw [hsap, show ("PM".toList : List Char) = ['P'] ++ ['M'] from rfl,
        ← List.append_assoc]
      exact List.getLast?_concat _
  obtain ⟨c, rest2, hc, hcsp, hcd⟩ := hhead
  refine ⟨?_, ?_, ?_⟩
  · unfold goTrimPre
    rw [if_neg ?_]
    intro habs
    obtain ⟨t2, ht2⟩ := prefixOfToAppend habs
    rw [hc] at ht2
    have hh := congrArg List.head? ht2
    simp at hh
    exact hcd hh.symm
  · unfold goTrimSuf
    rw [if_neg ?_]
    intro habs
    obtain ⟨t2, ht2⟩ := suffixOfToAppend habs
    rw [← ht2, show ("\"".toList : List Char) = ['\"'] from rfl,
      List.getLast?_concat] at hlast
    simp at hlast
  · unfold goTrimSpace
    have h1 : s.dropWhile goIsSpace = s := by
      rw [hc]
      simp [List.dropWhile_cons, hcsp]
    rw [h1]
    cases hrev : s.reverse with
    | nil =>
      rw [hc] at hrev
      simp at hrev
    | cons c2 tl =>
      have hc2 : c2 = 'M' := by
        have hx := List.head?_reverse s
        rw [hrev, hlast] at hx
        exact Option.some.inj hx
      have hnsp : goIsSpace c2 = false := by
        rw [hc2]
        decide
      have h2 : List.dropWhile goIsSpace (c2 :: tl) = c2 :: tl := by
        simp [List.dropWhile_cons, hnsp]
      rw [h2, ← hrev, List.reverse_reverse]

/-- C8: parseAppleScriptDate strips the optional date-quote wrapper and
parses the fixed layout — a layout-matching string parses to the same
instant wrapped or unwrapped, and a string whose stripped form does not
match the layout yields a parse error, never a silently returned zero
value. -/
theorem parseAppleScriptDate_layout (s : List Char) (t : GoTime) :
    (goTimeParse s = some t →
      parseAppleScriptDate s = .ok t ∧
      parseAppleScriptDate (wrapDate s) = .ok t) ∧
    (goTimeParse (goTrimSpace (goTrimSuf "\"".toList
        (goTrimPre "date \"".toList s))) = none →
      ∃ msg, parseAppleScriptDate s = .error msg) := by
  constructor
  · intro h
    obtain ⟨ha, hb, hc2⟩ := goTimeParse_strips h
    constructor
    · unfold parseAppleScriptDate
      rw [ha, hb, hc2, h]
    · have hw1 : goTrimPre "date \"".toList (wrapDate s) = s ++ ['\"'] := by
        unfold wrapDate goTrimPre
        have hassoc : "date \"".toList ++ s ++ ['\"'] =
            "date \"".toList ++ (s ++ ['\"']) := List.append_assoc _ _ _
        rw [hassoc, if_pos (appendToPrefixOf _ _)]
        exact List.drop_left _ _
      have hw2 : goTrimSuf "\"".toList (s ++ ['\"']) = s := by
        unfold goTrimSuf
        have hsuf : ("\"".toList : List Char).isSuffixOf (s ++ ['\"']) = true :=
          appendToSuffixOf s "\"".toList
        rw [if_pos hsuf]
        have hl : (s ++ ['\"']).length - ("\"".toList : List Char).length =
            s.length := by simp
        rw [hl]
        exact List.take_left _ _
      unfold parseAppleScriptDate
      rw [hw1, hw2, hc2, h]
  · intro hn
    unfold parseAppleScriptDate
    rw [hn]
    exact ⟨_, rfl⟩

/-- C8 witness: the spec's example date parses to the same instant in
wrapped and unwrapped form. -/
theorem parseAppleScriptDate_layout_witness :
    goTimeParse "Monday, January 1, 2024 at 10:00:00 AM".toList =
      some ⟨2024, 1, 1, 10, 0, 0⟩ ∧
    parseAppleScriptDate "Monday, January 1, 2024 at 10:00:00 AM".toList =
      .ok ⟨2024, 1, 1, 10, 0, 0⟩ ∧
    parseAppleScriptDate
        (wrapDate "Monday, January 1, 2024 at 10:00:00 AM".toList) =
      .ok ⟨2024, 1, 1, 10, 0, 0⟩ :=
  ⟨by decide,
   ((parseAppleScriptDate_layout "Monday, January 1, 2024 at 10:00:00 AM".toList
      ⟨2024, 1, 1, 10, 0, 0⟩).1 (by decide)).1,
   ((parseAppleScriptDate_layout "Monday, January 1, 2024 at 10:00:00 AM".toList
      ⟨2024, 1, 1, 10, 0, 0⟩).1 (by decide)).2⟩

end NotesMCP
